import Mathlib

/-!
# Verification of the ML-TIKET python worker pipeline

Shallow embedding of `apps/python-worker/main.py` and
`apps/python-worker/ml_pipeline.py`.

Modelling conventions:
* Spreadsheet cells are `Option String` (the loaders read with `dtype=str`,
  so every cell is a string or a missing value `NA`/`NaN`).
* Python floats are modelled as `ℚ` (all arithmetic in the pipeline is on
  exact small fractions; the claims do not concern float rounding).
* Python dicts are modelled as ordered association lists with the CPython
  semantics: key order is first-insertion order, a repeated insertion
  updates the value in place.
* pandas `NaN` results (e.g. a column mean over zero rows) are `none`;
  any `>=` comparison against `NaN` is false, as in numpy.
-/

/-! ## Python `str.strip` -/

/-- ASCII whitespace recognised by Python's `str.strip()` (we restrict the
model to the ASCII range; the repository's data never exercises Unicode
whitespace). -/
def isWsChar (c : Char) : Bool :=
  c == ' ' || c == '\t' || c == '\n' || c == '\r' || c == '\x0b' || c == '\x0c'

/-- `str.strip()` on the character list: drop whitespace at both ends. -/
def stripChars (l : List Char) : List Char :=
  (l.dropWhile isWsChar).rdropWhile isWsChar

/-- Python `str.strip()`. -/
def pyStrip (s : String) : String := String.mk (stripChars s.data)

/-! ## Header Normalizer (`_normalize_headers`, main.py:30-46) -/

/-- Loop of `_normalize_headers`.  `seen` is the running dict (modelled as a
total function, `seen.get(label, 0)` being plain application), `idx` the
0-based position.  Faithfully, the updated dict key is the *final* (possibly
suffixed) label, exactly as `seen[label] = count + 1` runs after the
reassignment of `label` in the source. -/
def normHeadGo (seen : String → Nat) (idx : Nat) : List (Option String) → List String
  | [] => []
  | c :: cs =>
    let base := match c with
      | none => ""
      | some s => pyStrip s
    let label := if base = "" then "col_" ++ toString (idx + 1) else base
    let count := seen label
    let final := if count ≠ 0 then label ++ "__" ++ toString count else label
    final :: normHeadGo (fun k => if k = final then count + 1 else seen k) (idx + 1) cs

/-- `_normalize_headers(columns)`: `None` cells become `""`, others are
stringified and stripped; empty labels become `col_{idx+1}`; a label already
seen gets the `__{count}` suffix. -/
def _normalize_headers (cols : List (Option String)) : List String :=
  normHeadGo (fun _ => 0) 0 cols

/-! ## Frames and the Sheet Cleaner (`_clean_sheet_dataframe`, main.py:85-123) -/

/-- A pandas DataFrame as produced by `pd.read_excel(..., dtype=str)`:
named columns and a grid of optional string cells (row major). -/
structure Frame where
  headers : List String
  rows : List (List (Option String))
deriving DecidableEq

/-- One cell through the cleaner's value normalisation: `applymap(strip)`
followed by `replace({"": NA, " ": NA})`. -/
def normCell (c : Option String) : Option String :=
  match c with
  | none => none
  | some s =>
    let t := pyStrip s
    if t = "" || t = " " then none else some t

/-- Number of non-missing cells of column `j` (cells beyond a ragged row's
end read as missing). -/
def covCount (rows : List (List (Option String))) (j : Nat) : Nat :=
  (rows.filter (fun r => (r.getD j none).isSome)).length

/-- `normalized.notna().mean()` for column `j`: `none` is the `NaN` a pandas
mean over zero rows produces. -/
def covQ (rows : List (List (Option String))) (j : Nat) : Option ℚ :=
  if rows.length = 0 then none else
    some ((covCount rows j : ℚ) / (rows.length : ℚ))

/-- `value >= threshold` with numpy semantics: false when the value is `NaN`. -/
def covOK (τ : ℚ) : Option ℚ → Bool
  | some c => decide (τ ≤ c)
  | none => false

/-- CPython dict insertion: an existing key keeps its position and gets the
new value, a new key is appended. -/
def dictInsert {α : Type} (d : List (String × α)) (k : String) (v : α) :
    List (String × α) :=
  if d.any (fun p => p.1 = k) then
    d.map (fun p => if p.1 = k then (k, v) else p)
  else d ++ [(k, v)]

/-- Build a CPython dict from a pair sequence (`Series.to_dict()`). -/
def pyDict {α : Type} (ps : List (String × α)) : List (String × α) :=
  ps.foldl (fun d p => dictInsert d p.1 p.2) []

/-- The normalized headers of a frame, as the cleaner computes them. -/
def normHeaders (f : Frame) : List String :=
  _normalize_headers (f.headers.map some)

/-- The normalized grid: every cell stripped and blank cells made missing. -/
def normGrid (f : Frame) : List (List (Option String)) :=
  f.rows.map (List.map normCell)

/-- `coverage = normalized.notna().mean().to_dict()`: per-label coverage in
dict order (duplicate labels collapse, last value wins — this matters
because `_normalize_headers` can emit duplicate labels). -/
def cleanCov (f : Frame) : List (String × Option ℚ) :=
  let hs := normHeaders f
  pyDict ((List.range hs.length).map (fun j => (hs.getD j "", covQ (normGrid f) j)))

/-- `columns_to_keep`: dict keys whose coverage passes the threshold. -/
def cleanKeepLabels (f : Frame) (τc : ℚ) : List String :=
  ((cleanCov f).filter (fun p => covOK τc p.2)).map Prod.fst

/-- pandas `df[labels]` column selection: every label in order, expanded to
all positions carrying that label. -/
def selIdx (hs : List String) (Ls : List String) : List Nat :=
  (Ls.map (fun L => (List.range hs.length).filter (fun j => hs.getD j "" = L))).flatten

/-- Indices of the columns the cleaner retains: the passing labels, or every
column when no label passes (`pruned = normalized[columns_to_keep] if
columns_to_keep else normalized`). -/
def cleanKeptIdx (f : Frame) (τc : ℚ) : List Nat :=
  let hs := normHeaders f
  let keep := cleanKeepLabels f τc
  if keep = [] then List.range hs.length else selIdx hs keep

/-- `pruned.notna().mean(axis=1)` for one (already column-pruned) row:
`none` is the `NaN` of a mean over zero columns. -/
def rowSignal (r : List (Option String)) : Option ℚ :=
  if r.length = 0 then none else
    some (((r.filter Option.isSome).length : ℚ) / (r.length : ℚ))

/-- The cleanup report. `pattern_signals` is omitted: it is a pure function
of the returned frame and no claim concerns its values. -/
structure CleanReport where
  dropped_rows : Nat
  dropped_columns : Nat
  column_coverage : List (String × Option ℚ)
deriving DecidableEq

/-- `_clean_sheet_dataframe(frame, min_column_coverage, min_row_signal)`:
normalize headers, strip values, blank→missing, prune low-coverage columns
(with the keep-everything fallback), then prune low-signal rows. -/
def _clean_sheet_dataframe (f : Frame) (τc τr : ℚ) : Frame × CleanReport :=
  let hs := normHeaders f
  let grid := normGrid f
  let keptIdx := cleanKeptIdx f τc
  let prunedHeaders := keptIdx.map (fun j => hs.getD j "")
  let prunedRows := grid.map (fun r => keptIdx.map (fun j => r.getD j none))
  let filteredRows := prunedRows.filter (fun r => covOK τr (rowSignal r))
  (⟨prunedHeaders, filteredRows⟩,
   ⟨prunedRows.length - filteredRows.length,
    hs.length - keptIdx.length,
    cleanCov f⟩)

/-- Default `min_column_coverage` (0.12). -/
def tauCol : ℚ := 12 / 100

/-- Default `min_row_signal` (0.18). -/
def tauRow : ℚ := 18 / 100

/-! ## Workbook Loader (`_load_excel`, main.py:126-206 and
`_load_sheet_frames`, main.py:209-253) -/

/-- A per-sheet preview record (`sheets.append({...})`, main.py:191-204;
`pattern_signals` omitted as in `CleanReport`). -/
structure SheetPreviewE where
  sheet : String
  columns : List String
  sample_row_count : Nat
  preview_rows : List (List (String × String))
  total_rows : Nat
  truncated : Bool
  dropped_rows : Nat
  dropped_columns : Nat
  column_coverage : List (String × Option ℚ)
deriving DecidableEq

/-- One row of `cleaned.fillna("").to_dict(orient="records")`: a dict keyed
by the column labels (duplicate labels collapse as in CPython dicts). -/
def rowRecord (hs : List String) (r : List (Option String)) : List (String × String) :=
  pyDict ((List.range hs.length).map (fun j => (hs.getD j "", (r.getD j none).getD "")))

/-- The body of `_load_excel`'s per-sheet loop: read at most
`max_rows_per_sheet + 1` rows, clean, flag truncation iff the cleaned row
count exceeds the cap, truncate, fall back to the raw header row when
cleaning yields no columns, and take the first `sample_rows` records. -/
def previewSheet (nm : String) (f : Frame) (sampleRows N : Nat) : SheetPreviewE :=
  let fT : Frame := ⟨f.headers, f.rows.take (N + 1)⟩
  let cleaned := _clean_sheet_dataframe fT tauCol tauRow
  let t := cleaned.1
  let records := t.rows.map (rowRecord t.headers)
  let full := records.length
  let truncated := decide (full > N)
  let records2 := if full > N then records.take N else records
  let cols := if t.headers = [] then f.headers else t.headers
  let pr := records2.take sampleRows
  ⟨nm, cols, pr.length, pr, full, truncated,
   cleaned.2.dropped_rows, cleaned.2.dropped_columns, cleaned.2.column_coverage⟩

/-- An Excel workbook once `pd.ExcelFile` has parsed it: named sheets in
file order. -/
structure Workbook where
  sheets : List (String × Frame)
deriving DecidableEq

/-- The outcome of handing the uploaded bytes to pandas: empty upload,
parse failure (with the parser's message), or a parsed workbook.  The byte
decoding itself is external (openpyxl) and is modelled by this outcome. -/
inductive ParsedUpload
  | emptyUpload
  | malformed (msg : String)
  | parsed (wb : Workbook)
deriving DecidableEq

/-- The two error categories the worker signals (`HTTPException` with
status 400 resp. 404). -/
inductive PyErr
  | invalidInput (detail : String)
  | notFound (detail : String)
deriving DecidableEq

/-- `sorted(set(sheet_names) - set(workbook.sheet_names))`: requested names
absent from the workbook, deduplicated and sorted.  An empty `sheet_names`
list is falsy in Python, so no check happens. -/
def missingSheets (wb : Workbook) (sn : Option (List String)) : List String :=
  match sn with
  | none => []
  | some l =>
    if l = [] then [] else
      ((l.filter (fun s => ¬ (wb.sheets.map Prod.fst).contains s)).dedup).mergeSort
        (fun a b => a ≤ b)

/-- The sheets surviving the `sheet_names` filter (an empty filter list is
falsy, hence no filtering). -/
def filteredSheets (wb : Workbook) (sn : Option (List String)) : List (String × Frame) :=
  wb.sheets.filter (fun p =>
    match sn with
    | none => true
    | some l => if l = [] then true else l.contains p.1)

/-- `_load_excel(file_bytes, sample_rows, max_rows_per_sheet, sheet_names)`. -/
def _load_excel (pin : ParsedUpload) (sampleRows N : Nat) (sn : Option (List String)) :
    Except PyErr (List SheetPreviewE) :=
  match pin with
  | .emptyUpload => .error (.invalidInput "Empty upload received")
  | .malformed m => .error (.invalidInput ("Invalid Excel file: " ++ m))
  | .parsed wb =>
    let missing := missingSheets wb sn
    if missing ≠ [] then
      .error (.notFound ("Sheet(s) not found: " ++ String.intercalate ", " missing))
    else
      .ok ((filteredSheets wb sn).map (fun p => previewSheet p.1 p.2 sampleRows N))

/-- `_load_sheet_frames(file_bytes, max_rows_per_sheet, sheet_names)`:
frame mode reads at most `max_rows_per_sheet` rows (no `+ 1`), cleans, and
fails with `NotFound` when no sheet remains. -/
def _load_sheet_frames (pin : ParsedUpload) (N : Nat) (sn : Option (List String)) :
    Except PyErr (List (String × Frame)) :=
  match pin with
  | .emptyUpload => .error (.invalidInput "Empty upload received")
  | .malformed m => .error (.invalidInput ("Invalid Excel file: " ++ m))
  | .parsed wb =>
    let missing := missingSheets wb sn
    if missing ≠ [] then
      .error (.notFound ("Sheet(s) not found: " ++ String.intercalate ", " missing))
    else
      let frames := (filteredSheets wb sn).map
        (fun p => (p.1, (_clean_sheet_dataframe ⟨p.2.headers, p.2.rows.take N⟩ tauCol tauRow).1))
      if frames = [] then .error (.notFound "No sheets found in workbook")
      else .ok frames

/-! ## Navigation Builder (`_build_navigation`, main.py:319-346) -/

/-- `SheetCursor`. -/
structure SheetCursorE where
  current : String
  available : List String
  previous : Option String
  next : Option String
deriving DecidableEq

/-- `_build_navigation(sheets, requested_sheet)`. -/
def _build_navigation (sheets : List SheetPreviewE) (requested : Option String) :
    Option SheetCursorE :=
  if sheets.isEmpty then none else
    let names := sheets.map (·.sheet)
    let current := match requested with
      | some r => if names.contains r then r else names.headD ""
      | none => names.headD ""
    let i := names.indexOf current
    let prev := if i > 0 then some (names.getD (i - 1) "") else none
    let nxt := if i + 1 < names.length then some (names.getD (i + 1) "") else none
    some ⟨current, names, prev, nxt⟩

/-- `preview_excel` (main.py:403-430), reduced to the data the claims
concern: the sheet list and the navigation cursor.  `sheet_filter =
[sheet] if sheet else None` — an empty-string sheet name is falsy. -/
def preview_excel (pin : ParsedUpload) (sheet : Option String) :
    Except PyErr (List SheetPreviewE × Option SheetCursorE) :=
  let sheetFilter := match sheet with
    | some s => if s = "" then none else some [s]
    | none => none
  match _load_excel pin 50 50000 sheetFilter with
  | .error e => .error e
  | .ok sheets => .ok (sheets, _build_navigation sheets sheet)

/-! ## ML Profiler (`ml_pipeline.py`) -/

/-- Decimal digit run to a natural number. -/
def digitsToNat (ds : List Char) : Nat :=
  ds.foldl (fun a c => a * 10 + (c.toNat - 48)) 0

/-- `pd.to_numeric(..., errors="coerce")` on one text cell: an optionally
signed decimal numeral with an optional fractional part (cleaned cells are
already stripped; exotic forms such as exponents are out of scope of the
claims and parse to `NaN` here as a conservative model). -/
def pyToNumeric (s : String) : Option ℚ :=
  let cs := s.data
  let signed := match cs with
    | '-' :: r => (true, r)
    | '+' :: r => (false, r)
    | r => (false, r)
  let intPart := signed.2.takeWhile Char.isDigit
  let rest := signed.2.dropWhile Char.isDigit
  match rest with
  | [] =>
    if intPart = [] then none
    else
      let v : ℚ := (digitsToNat intPart : ℚ)
      some (if signed.1 then -v else v)
  | '.' :: frac =>
    if frac.all Char.isDigit && !(intPart = [] && frac = []) then
      let v : ℚ := (digitsToNat (intPart ++ frac) : ℚ) / ((10 : ℚ) ^ frac.length)
      some (if signed.1 then -v else v)
    else none
  | _ => none

/-- Column `j` of a frame, as `frame[column]`. -/
def colVals (f : Frame) (j : Nat) : List (Option String) :=
  f.rows.map (fun r => r.getD j none)

/-- `pd.to_numeric(frame[column], errors="coerce")`: missing stays missing,
unparseable text becomes missing. -/
def coerceNum (col : List (Option String)) : List (Option ℚ) :=
  col.map (fun c => c.bind pyToNumeric)

/-- `series.notna().mean()` of the coerced column (0.0 on an empty series,
as the source guards with `if len(series)`). -/
def numericShare (col : List (Option String)) : ℚ :=
  if col.length = 0 then 0 else
    (((coerceNum col).filter Option.isSome).length : ℚ) / (col.length : ℚ)

/-- `frame[column].nunique(dropna=True)`. -/
def nuniqueCol (col : List (Option String)) : Nat :=
  (col.filterMap id).dedup.length

/-- `numeric_share > 0.6 and unique_values > 3` (ml_pipeline.py:43). -/
def isNumericCol (col : List (Option String)) : Bool :=
  decide (numericShare col > 3 / 5) && decide (nuniqueCol col > 3)

/-- A column after `_split_column_types`: numeric columns are replaced by
their coerced series, the rest stay categorical text. -/
inductive TypedCol
  | num (vals : List (Option ℚ))
  | cat (vals : List (Option String))
deriving DecidableEq

/-- `_split_column_types(frame)` (ml_pipeline.py:31-49), column order
preserved. -/
def _split_column_types (f : Frame) : List (String × TypedCol) :=
  (List.range f.headers.length).map (fun j =>
    let col := colVals f j
    (f.headers.getD j "",
     if isNumericCol col then TypedCol.num (coerceNum col) else TypedCol.cat col))

/-- Ascending sort (pandas sorts the values when computing quantiles). -/
def sortQ (xs : List ℚ) : List ℚ :=
  xs.mergeSort (fun a b => decide (a ≤ b))

/-- `series.quantile(p)` with the default linear interpolation, on the
sorted non-missing values: position `h = (m-1)·p`, linear between the two
neighbouring order statistics. -/
def quantileSorted (xs : List ℚ) (p : ℚ) : ℚ :=
  let h : ℚ := p * ((xs.length : ℚ) - 1)
  let i := ⌊h⌋₊
  let a := xs.getD i 0
  let b := xs.getD (i + 1) a
  a + (h - (i : ℚ)) * (b - a)

/-- The per-column entry of the outlier summary dict. -/
structure OutSummary where
  lower : Option ℚ
  upper : Option ℚ
  capped : Nat
deriving DecidableEq

/-- `series.clip(lower, upper)` on one value; a `NaN` bound (`none`) does
not clip, and the upper bound is applied after the lower one. -/
def clipQ (lo hi : Option ℚ) (x : ℚ) : ℚ :=
  let x1 := match lo with
    | some l => max l x
    | none => x
  match hi with
  | some u => min u x1
  | none => x1

/-- pandas element-wise `!=`: any comparison involving `NaN` is `True`
(in particular `NaN != NaN`). -/
def pandasNe : Option ℚ → Option ℚ → Bool
  | some a, some b => decide (a ≠ b)
  | _, _ => true

/-- `_iqr_cap` (ml_pipeline.py:56-81) on one numeric column.  An empty
series is skipped (`none`); an all-missing column yields `NaN` bounds and
no clipping.  The reported `capped` count is `(clipped != series).sum()`
with the pandas `NaN != NaN` semantics. -/
def _iqr_cap_col (col : List (Option ℚ)) : Option (OutSummary × List (Option ℚ)) :=
  if col.length = 0 then none
  else
    let xs := sortQ (col.filterMap id)
    let bounds : Option ℚ × Option ℚ :=
      if xs.length = 0 then (none, none)
      else
        let q1 := quantileSorted xs (1 / 4)
        let q3 := quantileSorted xs (3 / 4)
        let iqr := q3 - q1
        (some (q1 - 3 / 2 * iqr), some (q3 + 3 / 2 * iqr))
    let clipped := col.map (Option.map (clipQ bounds.1 bounds.2))
    some (⟨bounds.1, bounds.2,
           ((col.zip clipped).filter (fun p => pandasNe p.2 p.1)).length⟩,
          clipped)

/-- The effect of `_iqr_cap`'s loop on one column of the frame it returns:
numeric columns are replaced by their clipped series (`capped[column] =
clipped`), skipped empty series and categorical columns stay unchanged. -/
def capCol : TypedCol → TypedCol
  | TypedCol.num vals =>
    match _iqr_cap_col vals with
    | some r => TypedCol.num r.2
    | none => TypedCol.num vals
  | TypedCol.cat vals => TypedCol.cat vals

/-- `_iqr_cap` over the typed columns: numeric columns are clipped in the
returned frame, each non-skipped one contributing a summary entry. -/
def _iqr_cap (cols : List (String × TypedCol)) :
    List (String × TypedCol) × List (String × OutSummary) :=
  (cols.map (fun p => (p.1, capCol p.2)),
   cols.foldr (fun p acc =>
     match p.2 with
     | TypedCol.num vals =>
       match _iqr_cap_col vals with
       | some r => (p.1, r.1) :: acc
       | none => acc
     | TypedCol.cat _ => acc) [])

/-- `np.nanmedian`-style median of the non-missing values, as
`SimpleImputer(strategy="median")` computes it (0 on an empty list; the
empty case never feeds a retained numeric feature). -/
def medianQ (xs : List ℚ) : ℚ :=
  let s := sortQ xs
  let m := s.length
  if m = 0 then 0
  else if m % 2 = 1 then s.getD (m / 2) 0
  else (s.getD (m / 2 - 1) 0 + s.getD (m / 2) 0) / 2

/-- Arithmetic mean (0 on an empty list). -/
def meanQ (xs : List ℚ) : ℚ :=
  if xs.length = 0 then 0 else xs.sum / (xs.length : ℚ)

/-- Population variance, as `StandardScaler` computes it (`ddof = 0`). -/
def varQ (xs : List ℚ) : ℚ :=
  meanQ (xs.map (fun x => (x - meanQ xs) ^ 2))

/-- Ascending sort on strings (sklearn sorts categories). -/
def sortStr (xs : List String) : List String :=
  xs.mergeSort (fun a b => decide (a ≤ b))

/-- `SimpleImputer(strategy="most_frequent")`'s statistic: the smallest
value among the most frequent ones ("" on an empty list; the empty case
contributes no feature column). -/
def modeStr (xs : List String) : String :=
  let u := sortStr xs.dedup
  u.foldl (fun b c => if xs.count c > xs.count b then c else b) (u.headD "")

/-- One matrix entry.  `Feat.num c v` denotes the real number
`c / sqrt v` (or `c` when `v = 0`, sklearn's guard for constant columns):
the centered value together with the population variance used by the
scaler, kept unevaluated so the embedding stays within `ℚ`.  `Feat.cat b`
is a 0/1 one-hot indicator. -/
inductive Feat
  | num (centered : ℚ) (variance : ℚ)
  | cat (b : Bool)
deriving DecidableEq

/-- `OneHotEncoder` categories of a categorical column after most-frequent
imputation: sorted distinct values ([] for an all-missing column, which
`SimpleImputer` discards before encoding). -/
def catCategories (vals : List (Option String)) : List String :=
  let nm := vals.filterMap id
  if nm = [] then [] else sortStr ((vals.map (fun c => c.getD (modeStr nm))).dedup)

/-- The per-row feature lists of one transformed column (row `i`'s
contribution is position `i`): a numeric column yields one scaled entry,
a categorical column one indicator per category except the first
(`drop="first"`); all-missing columns are dropped by the imputer and
contribute nothing. -/
def colBlock : TypedCol → List (List Feat)
  | TypedCol.num vals =>
    let nm := vals.filterMap id
    if nm = [] then vals.map (fun _ => [])
    else
      let med := medianQ nm
      let imputed := vals.map (fun c => c.getD med)
      let μ := meanQ imputed
      let v := varQ imputed
      imputed.map (fun x => [Feat.num (x - μ) v])
  | TypedCol.cat vals =>
    let nm := vals.filterMap id
    if nm = [] then vals.map (fun _ => [])
    else
      let imputed := vals.map (fun c => c.getD (modeStr nm))
      let cats := catCategories vals
      imputed.map (fun x => cats.tail.map (fun c => Feat.cat (decide (x = c))))

/-- Is a typed column numeric? -/
def isNumTC : TypedCol → Bool
  | TypedCol.num _ => true
  | TypedCol.cat _ => false

/-- Number of rows a typed column spans. -/
def valsLen : TypedCol → Nat
  | TypedCol.num vals => vals.length
  | TypedCol.cat vals => vals.length

/-- The number of feature-matrix columns one transformed column yields:
one for a (non-all-missing) numeric column, category-count − 1 for a
categorical column, none for all-missing columns (dropped by the
imputers). -/
def featWidth : TypedCol → Nat
  | TypedCol.num vals => if vals.filterMap id = [] then 0 else 1
  | TypedCol.cat vals => (catCategories vals).tail.length

/-- `_build_feature_matrix` (ml_pipeline.py:84-129): the
`ColumnTransformer` concatenates the numeric block (input order) and then
the categorical block (input order), row order preserved. -/
def _build_feature_matrix (cols : List (String × TypedCol)) (n : Nat) : List (List Feat) :=
  let ordered := cols.filter (fun p => isNumTC p.2) ++ cols.filter (fun p => !isNumTC p.2)
  let blocks := ordered.map (fun p => colBlock p.2)
  (List.range n).map (fun i => (blocks.map (fun b => b.getD i [])).flatten)

/-- The feature matrix `build_ml_preview` computes for a non-empty frame:
split the columns, cap numeric outliers, then fit/transform
(ml_pipeline.py:144-159). -/
def mlFeatureMatrix (f : Frame) : List (List Feat) :=
  _build_feature_matrix (_iqr_cap (_split_column_types f)).1 f.rows.length

/-! ## Request Serialization Queue (`ExcelProcessingQueue`, main.py:277-313)

The queue's single worker repeatedly takes the oldest queued job, awaits it
to completion, and resolves that job's future before taking the next one.
We model this as a deterministic small-step machine: a job is an id plus an
arbitrary duration (`work` suspension points), the state holds the
currently executing job, the pending FIFO backlog, and the ids whose
futures have been resolved, in resolution order.  One `qstep` either
advances the running job by one unit, delivers a finished job's result, or
dequeues the next job — never more than one job is running. -/

/-- A queued job: its enqueue identity and how much work it needs. -/
structure QJob where
  id : Nat
  work : Nat
deriving DecidableEq

/-- The worker state. -/
structure QState where
  running : Option QJob
  pending : List QJob
  delivered : List Nat
deriving DecidableEq

/-- One scheduler step of the worker loop. -/
def qstep : QState → QState
  | ⟨some j, p, d⟩ =>
    if j.work = 0 then ⟨none, p, d ++ [j.id]⟩
    else ⟨some ⟨j.id, j.work - 1⟩, p, d⟩
  | ⟨none, j :: p, d⟩ => ⟨some j, p, d⟩
  | ⟨none, [], d⟩ => ⟨none, [], d⟩

/-- Run `n` scheduler steps. -/
def qrun (s : QState) : Nat → QState
  | 0 => s
  | n + 1 => qrun (qstep s) n

/-- Steps after which every job of the backlog has been delivered. -/
def qTotalSteps (jobs : List QJob) : Nat :=
  (jobs.map (fun j => j.work + 2)).sum

/-! ## Concrete fixtures used by counterexamples and witnesses -/

/-- Three identical raw labels: triggers the `seen[label]` slip of
`_normalize_headers`. -/
def dupLabels : List (Option String) := [some "A", some "A", some "A"]

/-- A sheet whose raw header row repeats the label `A`: after (buggy)
normalization the second and third column both carry `A__1`, with column 1
fully populated and column 2 empty. -/
def dupHeaderFrame : Frame :=
  ⟨["A", "A", "A"], [[some "x", some "x", none], [some "y", some "y", none]]⟩

/-- A one-column, one-row sheet whose only cell is missing: zero coverage,
so the keep-everything fallback retains a below-threshold column. -/
def sparseFrame : Frame := ⟨["A"], [[none]]⟩

/-- A row populated only in the last of six columns: row signal 1/6 < 0.18. -/
def rowOnlyF : List (Option String) := [none, none, none, none, none, some "x"]

/-- A row populated in the first five of six columns: row signal 5/6. -/
def rowNotF : List (Option String) :=
  [some "x", some "x", some "x", some "x", some "x", none]

/-- Column `F` has coverage 1/8 ≥ 0.12 before row pruning, but its only
populated row has signal 1/6 < 0.18 and is pruned, leaving `F` empty in the
cleaned output — recleaning then drops `F`. -/
def skewedFrame : Frame :=
  ⟨["A", "B", "C", "D", "E", "F"],
   [rowOnlyF, rowNotF, rowNotF, rowNotF, rowNotF, rowNotF, rowNotF, rowNotF]⟩

/-- The spec's example outlier column `[1, 2, 3, 4, 100]`. -/
def outlierCol : List (Option ℚ) := [some 1, some 2, some 3, some 4, some 100]

/-- The outlier column with one missing value appended. -/
def outlierColNA : List (Option ℚ) := outlierCol ++ [none]

/-- The same column as raw text cells, with one missing cell: numeric by
the `_split_column_types` heuristic (share 5/6 > 0.6, 5 > 3 distinct). -/
def strOutlierCol : List (Option String) :=
  [some "1", some "2", some "3", some "4", some "100", none]

/-! ## Spec-side definitions (for comparison with the code) -/

/-- Following the claim's words: the number of values the clipping to
`[lower, upper]` actually changed — missing values, which clipping leaves
unchanged, are not counted. -/
def specCappedCount (col : List (Option ℚ)) (lo hi : Option ℚ) : Nat :=
  ((col.filterMap id).filter (fun x => decide (clipQ lo hi x ≠ x))).length

/-- Number of missing entries of a column. -/
def missingCount (col : List (Option ℚ)) : Nat :=
  (col.filter (fun c => c.isNone)).length

/-- Numeric columns found by `_split_column_types`. -/
def splitNumCount (f : Frame) : Nat :=
  ((_split_column_types f).filter (fun p => isNumTC p.2)).length

/-- Distinct non-missing values of a categorical column (its categories);
0 for a numeric column. -/
def catDistinct : TypedCol → Nat
  | TypedCol.num _ => 0
  | TypedCol.cat vals => (vals.filterMap id).dedup.length

/-- Sum over categorical columns of (category count − 1), the claim's
one-hot width. -/
def splitCatWidth (f : Frame) : Nat :=
  (((_split_column_types f).filter (fun p => !isNumTC p.2)).map
    (fun p => catDistinct p.2 - 1)).sum

/-- The job ids present in a state, in service order: delivered first, then
the running job, then the backlog. -/
def qids (s : QState) : List Nat :=
  s.delivered ++ (match s.running with
    | some j => [j.id]
    | none => []) ++ s.pending.map QJob.id

/-- A two-sheet workbook (`Sheet1`, `Sheet2`). -/
def wbTwoSheets : Workbook :=
  ⟨[("Sheet1", ⟨["A"], [[some "x"]]⟩), ("Sheet2", ⟨["B"], [[some "y"]]⟩)]⟩

/-- A three-sheet workbook (`A`, `B`, `C`). -/
def wbThreeSheets : Workbook :=
  ⟨[("A", ⟨["h"], [[some "1"]]⟩), ("B", ⟨["h"], [[some "2"]]⟩),
    ("C", ⟨["h"], [[some "3"]]⟩)]⟩

/-- The coverage pairs of the cleaner, before dict collapsing. -/
def covPairs (f : Frame) : List (String × Option ℚ) :=
  (List.range (normHeaders f).length).map
    (fun j => ((normHeaders f).getD j "", covQ (normGrid f) j))

/-- A fully-populated two-column frame with distinct headers. -/
def denseFrame : Frame :=
  ⟨["a", "b"], [[some "x", some "y"], [some "x", some "y"]]⟩

/-- A fully-populated one-row, two-column frame. -/
def denseFrameB : Frame := ⟨["u", "v"], [[some "p", some "q"]]⟩

/-- A tiny frame with one numeric column (5 distinct numerals) and one
categorical column with 3 distinct values. -/
def mlFrame : Frame :=
  ⟨["n", "c"],
   [[some "1", some "a"], [some "2", some "a"], [some "3", some "b"],
    [some "4", some "b"], [some "5", some "c"]]⟩

/-! # Theorems -/

/-- Claim C1 (code bug): `_normalize_headers` is meant to disambiguate
duplicate labels — `["A","A","A"]` should give `["A","A__1","A__2"]` with
pairwise-distinct output.  Because `seen[label] = count + 1` writes the
*renamed* label (the occurrence count of `"A"` is never advanced past 1),
the code emits `["A","A__1","A__1"]`: the suffix uses count 1 twice and the
output is not pairwise distinct. -/
theorem c1_normalize_headers_duplicate_eval :
    _normalize_headers dupLabels = ["A", "A__1", "A__1"] ∧
      ¬ (_normalize_headers dupLabels).Nodup ∧
      _normalize_headers dupLabels ≠ ["A", "A__1", "A__2"] := by
  with_unfolding_all decide

/-- Claim C6 (code bug): column pruning should drop a column only when its
pre-pruning coverage is below `min_column_coverage`.  On `dupHeaderFrame`
the (buggy) header normalization names columns 1 and 2 both `A__1`; the
coverage dict keeps only the *last* value (0), so column 1 — fully
populated, coverage 1 ≥ 0.12 — is dropped together with column 2, and the
cleaner returns only `["A"]`. -/
theorem c6_column_drop_eval :
    (_clean_sheet_dataframe dupHeaderFrame tauCol tauRow).1.headers = ["A"] ∧
      normHeaders dupHeaderFrame = ["A", "A__1", "A__1"] ∧
      covQ (normGrid dupHeaderFrame) 1 = some 1 ∧
      covOK tauCol (covQ (normGrid dupHeaderFrame) 1) = true ∧
      (_clean_sheet_dataframe dupHeaderFrame tauCol tauRow).2.dropped_columns = 2 := by
  with_unfolding_all decide

/-- Claim C3, counterexample: on a one-column sheet whose single cell is
missing, no column reaches the 0.12 coverage threshold, so the fallback
keeps the column — the retained column `A` has pre-pruning coverage 0,
strictly below `min_column_coverage`. -/
theorem c3_coverage_counterexample :
    (_clean_sheet_dataframe sparseFrame tauCol tauRow).1.headers = ["A"] ∧
      covQ (normGrid sparseFrame) 0 = some 0 ∧
      covOK tauCol (covQ (normGrid sparseFrame) 0) = false := by
  with_unfolding_all decide

/-- Claim C4, counterexample: cleaning `skewedFrame` keeps column `F`
(coverage 1/8 ≥ 0.12) but prunes the single row populating it (signal
1/6 < 0.18); recleaning the output then finds `F` at coverage 0 and drops
it, so the cleaner is not idempotent. -/
theorem c4_idempotence_counterexample :
    (_clean_sheet_dataframe (_clean_sheet_dataframe skewedFrame tauCol tauRow).1
        tauCol tauRow).1
      ≠ (_clean_sheet_dataframe skewedFrame tauCol tauRow).1 ∧
    (_clean_sheet_dataframe (_clean_sheet_dataframe skewedFrame tauCol tauRow).1
        tauCol tauRow).2.dropped_columns = 1 := by
  with_unfolding_all decide

/-- Claim C2, counterexample: on a numeric column with one missing value
(`[1,2,3,4,100,NaN]`, numeric by the split heuristic), the bounds are
`[-1, 7]` and exactly one value (100) is changed by clipping, but the code
reports `capped = 2`: `(clipped != series)` is `True` at the `NaN` entry,
so the missing value is counted although clipping leaves it unchanged. -/
theorem c2_capped_count_counterexample :
    isNumericCol strOutlierCol = true ∧
      coerceNum strOutlierCol = outlierColNA ∧
      (_iqr_cap_col outlierColNA).map (fun r => r.1) =
        some ⟨some (-1), some 7, 2⟩ ∧
      specCappedCount outlierColNA (some (-1)) (some 7) = 1 := by
  with_unfolding_all decide

/-- Claim C5 (confirmed): in preview mode with cap `N`, the reported
`total_rows` is the cleaned row count before truncation (the read itself
being capped at `N + 1` rows), the `truncated` flag is set exactly when
that count exceeds `N`, and at most `N` row records are returned.  In
particular a sheet cleaning to exactly `N + 1` rows is flagged and capped,
and one cleaning to exactly `N` rows is not flagged. -/
theorem c5_truncation_flag :
    ∀ (nm : String) (f : Frame) (sampleRows N : Nat),
      (previewSheet nm f sampleRows N).total_rows =
          (_clean_sheet_dataframe ⟨f.headers, f.rows.take (N + 1)⟩ tauCol tauRow).1.rows.length ∧
        (previewSheet nm f sampleRows N).truncated
          = decide ((previewSheet nm f sampleRows N).total_rows > N) ∧
        (previewSheet nm f sampleRows N).preview_rows.length ≤ N := by
  intro nm f sampleRows N
  refine ⟨by simp [previewSheet], by simp [previewSheet], ?_⟩
  simp only [previewSheet, List.length_take]
  split <;> simp_all

/-! ### Queue lemmas (C9) -/


theorem qrun_add (s : QState) (a b : Nat) : qrun s (a + b) = qrun (qrun s a) b := by
  induction a generalizing s with
  | zero => simp [qrun]
  | succ a ih =>
    have : a + 1 + b = (a + b) + 1 := by omega
    rw [this]
    simpa [qrun] using ih (qstep s)

theorem qrun_countdown (i w : Nat) (p : List QJob) (d : List Nat) :
    qrun ⟨some ⟨i, w⟩, p, d⟩ (w + 1) = ⟨none, p, d ++ [i]⟩ := by
  induction w with
  | zero => simp [qrun, qstep]
  | succ w ih => simpa [qrun, qstep] using ih

theorem qrun_one_job (j : QJob) (p : List QJob) (d : List Nat) :
    qrun ⟨none, j :: p, d⟩ (j.work + 2) = ⟨none, p, d ++ [j.id]⟩ := by
  have h : j.work + 2 = 1 + (j.work + 1) := by omega
  rw [h, qrun_add]
  cases j with
  | mk i w => simpa [qrun, qstep] using qrun_countdown i w p d

theorem qrun_all (jobs : List QJob) :
    ∀ d, qrun ⟨none, jobs, d⟩ (qTotalSteps jobs) = ⟨none, [], d ++ jobs.map QJob.id⟩ := by
  induction jobs with
  | nil => intro d; simp [qTotalSteps, qrun]
  | cons j js ih =>
    intro d
    have h : qTotalSteps (j :: js) = (j.work + 2) + qTotalSteps js := by
      simp [qTotalSteps]
    rw [h, qrun_add, qrun_one_job, ih]
    simp

theorem qids_qstep (s : QState) : qids (qstep s) = qids s := by
  obtain ⟨r, p, d⟩ := s
  cases r with
  | some j =>
    by_cases h : j.work = 0 <;> simp [qstep, qids, h]
  | none =>
    cases p with
    | nil => rfl
    | cons j p => simp [qstep, qids]

theorem qids_qrun (s : QState) (k : Nat) : qids (qrun s k) = qids s := by
  induction k generalizing s with
  | zero => rfl
  | succ k ih => simpa [qrun, qids_qstep] using ih (qstep s)

/-- Claim C9 (confirmed): the serialization queue executes one job at a
time in FIFO order; whatever the per-job durations (`work`), after enough
scheduler steps the delivered results are exactly the jobs in enqueue
order, and at every intermediate instant the delivered list is a prefix of
the enqueue order — results are never delivered out of order, even when a
later job is intrinsically faster than an earlier one. -/
theorem c9_queue_fifo :
    ∀ jobs : List QJob,
      (qrun ⟨none, jobs, []⟩ (qTotalSteps jobs)).delivered = jobs.map QJob.id ∧
        ∀ k, (qrun ⟨none, jobs, []⟩ k).delivered <+: jobs.map QJob.id := by
  intro jobs
  constructor
  · rw [qrun_all jobs []]; simp
  · intro k
    have h := qids_qrun ⟨none, jobs, []⟩ k
    have h2 : qids ⟨none, jobs, []⟩ = jobs.map QJob.id := by simp [qids]
    refine ⟨(match (qrun ⟨none, jobs, []⟩ k).running with
      | some j => [j.id]
      | none => []) ++ (qrun ⟨none, jobs, []⟩ k).pending.map QJob.id, ?_⟩
    rw [← h2, ← h]
    simp [qids]

/-! ### Loader error taxonomy (C7) and navigation (C10) -/

theorem mapfst_filter_eq_single (l : List (String × Frame)) (s : String)
    (hnd : (l.map Prod.fst).Nodup) (hmem : s ∈ l.map Prod.fst) :
    (l.filter (fun p => p.1 == s)).map Prod.fst = [s] := by
  induction l with
  | nil => simp at hmem
  | cons hd t ih =>
    simp only [List.map_cons, List.nodup_cons] at hnd
    rcases hnd with ⟨hk, hndt⟩
    simp only [List.map_cons, List.mem_cons] at hmem
    rcases hmem with heq | hmem
    · subst heq
      have ht : t.filter (fun p => p.1 == hd.1) = [] := by
        rw [List.filter_eq_nil_iff]
        intro p hp
        simp only [beq_iff_eq]
        intro hps
        exact hk (hps ▸ List.mem_map_of_mem Prod.fst hp)
      simp [List.filter_cons, ht]
    · have hne : hd.1 ≠ s := by
        intro h
        exact hk (h ▸ hmem)
      have := ih hndt hmem
      simp [List.filter_cons, hne, this]

/-- Claim C7 (confirmed): the loaders signal exactly two error categories.
Empty bytes and unparseable bytes give `InvalidInput` (with the messages of
main.py:140-146); for a parsed workbook the preview loader fails iff the
(sorted, comma-joined) missing-sheet list is non-empty, in which case the
error is the `NotFound` of main.py:154-159; frame mode additionally fails
with `NotFound` when no sheet remains after filtering, and succeeds
otherwise — the cleaning steps themselves are total and never raise. -/
theorem c7_loader_errors :
    ∀ (sampleRows cap : Nat) (sn : Option (List String)),
      (_load_excel .emptyUpload sampleRows cap sn
          = .error (.invalidInput "Empty upload received")) ∧
        (∀ m, _load_excel (.malformed m) sampleRows cap sn
          = .error (.invalidInput ("Invalid Excel file: " ++ m))) ∧
        (∀ wb, (∃ e, _load_excel (.parsed wb) sampleRows cap sn = .error e)
          ↔ missingSheets wb sn ≠ []) ∧
        (∀ wb, missingSheets wb sn ≠ [] →
          _load_excel (.parsed wb) sampleRows cap sn
            = .error (.notFound ("Sheet(s) not found: "
                ++ String.intercalate ", " (missingSheets wb sn)))) ∧
        (_load_sheet_frames .emptyUpload cap sn
          = .error (.invalidInput "Empty upload received")) ∧
        (∀ m, _load_sheet_frames (.malformed m) cap sn
          = .error (.invalidInput ("Invalid Excel file: " ++ m))) ∧
        (∀ wb, (∃ e, _load_sheet_frames (.parsed wb) cap sn = .error e)
          ↔ (missingSheets wb sn ≠ [] ∨ filteredSheets wb sn = [])) ∧
        (∀ wb, missingSheets wb sn = [] → filteredSheets wb sn = [] →
          _load_sheet_frames (.parsed wb) cap sn
            = .error (.notFound "No sheets found in workbook")) := by
  intro sampleRows cap sn
  refine ⟨rfl, fun m => rfl, fun wb => ?_, fun wb h => ?_, rfl, fun m => rfl,
    fun wb => ?_, fun wb h1 h2 => ?_⟩
  · by_cases h : missingSheets wb sn = [] <;> simp [_load_excel, h]
  · simp [_load_excel, h]
  · by_cases h : missingSheets wb sn = [] <;>
      by_cases h2 : filteredSheets wb sn = [] <;>
      simp [_load_sheet_frames, h, h2]
  · simp [_load_sheet_frames, h1, h2]


/-- Witness for C7: requesting `Sheet3` from a workbook with sheets
`Sheet1`, `Sheet2` yields `NotFound` naming exactly `Sheet3`. -/
theorem c7_loader_errors_witness :
    missingSheets wbTwoSheets (some ["Sheet3"]) ≠ [] ∧
      _load_excel (.parsed wbTwoSheets) 50 10 (some ["Sheet3"])
        = .error (.notFound "Sheet(s) not found: Sheet3") := by
  have h := (c7_loader_errors 50 10 (some ["Sheet3"])).2.2.2.1 wbTwoSheets
    (by with_unfolding_all decide)
  rw [show missingSheets wbTwoSheets (some ["Sheet3"]) = ["Sheet3"] from
    by with_unfolding_all decide] at h
  exact ⟨by with_unfolding_all decide, h⟩


/-- Claim C10 (confirmed): when the preview request filters on a sheet name
present in the workbook (Python truthiness: a non-empty name), the
navigation cursor is built from the filtered sheet list only — its
`available` list is exactly that one sheet and `previous`/`next` are both
`null`, whatever the workbook's other sheets and the sheet's position. -/
theorem c10_navigation_filtered :
    ∀ (wb : Workbook) (s : String),
      (wb.sheets.map Prod.fst).Nodup → s ≠ "" → s ∈ wb.sheets.map Prod.fst →
      ∃ sheets, preview_excel (.parsed wb) (some s)
        = .ok (sheets, some ⟨s, [s], none, none⟩) := by
  intro wb s hnd hs hmem
  have hmiss : missingSheets wb (some [s]) = [] := by
    simp [missingSheets, List.filter_cons, hmem]
  have hfil : filteredSheets wb (some [s])
      = wb.sheets.filter (fun p => p.1 == s) := by
    simp [filteredSheets]
    rfl
  have hnames : ((filteredSheets wb (some [s])).map
      (fun p => previewSheet p.1 p.2 50 50000)).map (·.sheet) = [s] := by
    rw [List.map_map, hfil]
    have : ((fun x : SheetPreviewE => x.sheet) ∘ fun p : String × Frame =>
        previewSheet p.1 p.2 50 50000) = Prod.fst := by
      funext p
      rfl
    rw [this]
    exact mapfst_filter_eq_single wb.sheets s hnd hmem
  refine ⟨(filteredSheets wb (some [s])).map (fun p => previewSheet p.1 p.2 50 50000), ?_⟩
  have hload : _load_excel (.parsed wb) 50 50000 (some [s])
      = .ok ((filteredSheets wb (some [s])).map (fun p => previewSheet p.1 p.2 50 50000)) := by
    simp [_load_excel, hmiss]
  have hnav : _build_navigation
      ((filteredSheets wb (some [s])).map (fun p => previewSheet p.1 p.2 50 50000)) (some s)
      = some ⟨s, [s], none, none⟩ := by
    have hne : ((filteredSheets wb (some [s])).map
        (fun p => previewSheet p.1 p.2 50 50000)).isEmpty = false := by
      rw [List.isEmpty_eq_false_iff_exists_mem]
      have : s ∈ ((filteredSheets wb (some [s])).map
          (fun p => previewSheet p.1 p.2 50 50000)).map (·.sheet) := by
        rw [hnames]; exact List.mem_singleton.mpr rfl
      rcases List.mem_map.mp this with ⟨e, he, _⟩
      exact ⟨e, he⟩
    simp only [_build_navigation, hne, Bool.false_eq_true, if_false, hnames]
    simp
  simp [preview_excel, hs, hload, hnav]

/-- Witness for C10: requesting the middle sheet `B` of a three-sheet
workbook yields a cursor with `available = ["B"]` and no neighbours. -/
theorem c10_navigation_filtered_witness :
    (wbThreeSheets.sheets.map Prod.fst).Nodup ∧
      ∃ sheets, preview_excel (.parsed wbThreeSheets) (some "B")
        = .ok (sheets, some ⟨"B", ["B"], none, none⟩) :=
  ⟨by with_unfolding_all decide,
   c10_navigation_filtered wbThreeSheets "B" (by with_unfolding_all decide)
     (by with_unfolding_all decide) (by with_unfolding_all decide)⟩

/-! ### Column pruning under distinct headers (C3, C4) -/

theorem getD_mem_of_lt {α : Type} (l : List α) (j : Nat) (d : α) (h : j < l.length) :
    l.getD j d ∈ l := by
  rw [List.getD_eq_getElem l d h]
  exact List.getElem_mem h

theorem map_getD_range {α : Type} (l : List α) (d : α) :
    (List.range l.length).map (fun j => l.getD j d) = l := by
  induction l with
  | nil => rfl
  | cons a t ih =>
    rw [List.length_cons, List.range_succ_eq_map, List.map_cons, List.map_map]
    have h : ((fun j => (a :: t).getD j d) ∘ Nat.succ) = fun j => t.getD j d := rfl
    rw [h, ih]
    rfl

theorem dictInsert_append {α : Type} (acc : List (String × α)) (k : String) (v : α)
    (h : k ∉ acc.map Prod.fst) : dictInsert acc k v = acc ++ [(k, v)] := by
  have : acc.any (fun p => p.1 = k) = false := by
    simp only [List.any_eq_false]
    intro p hp
    simp only [decide_eq_true_eq]
    intro hk
    exact h (hk ▸ List.mem_map_of_mem Prod.fst hp)
  simp [dictInsert, this]

theorem pyDict_eq_self_aux {α : Type} (ps acc : List (String × α))
    (h : ((acc ++ ps).map Prod.fst).Nodup) :
    ps.foldl (fun d p => dictInsert d p.1 p.2) acc = acc ++ ps := by
  induction ps generalizing acc with
  | nil => simp
  | cons p ps ih =>
    have hk : p.1 ∉ acc.map Prod.fst := by
      intro hmem
      rw [List.map_append, List.nodup_append] at h
      exact h.2.2 hmem (by simp)
    rw [List.foldl_cons, dictInsert_append acc p.1 p.2 hk]
    have := ih (acc ++ [p]) (by simpa using h)
    simpa using this

/-- A CPython dict built from pairs with pairwise-distinct keys is those
pairs in order. -/
theorem pyDict_eq_self {α : Type} (ps : List (String × α))
    (h : (ps.map Prod.fst).Nodup) : pyDict ps = ps := by
  simpa using pyDict_eq_self_aux ps [] (by simpa using h)

theorem filter_range_getD_cons (H : String) (t : List String) (L : String) :
    (List.range (H :: t).length).filter (fun j => (H :: t).getD j "" = L)
      = (if H = L then [0] else [])
        ++ ((List.range t.length).filter (fun j => t.getD j "" = L)).map (· + 1) := by
  rw [List.length_cons, List.range_succ_eq_map, List.filter_cons]
  have : (List.filter (fun j => decide ((H :: t).getD j "" = L)) ((List.range t.length).map Nat.succ))
      = ((List.range t.length).filter (fun j => t.getD j "" = L)).map Nat.succ := by
    rw [List.filter_map]
    congr 1
  rw [this]
  by_cases hH : H = L <;> simp [hH]

theorem filter_range_getD_nil (t : List String) (L : String) (hL : L ∉ t) :
    (List.range t.length).filter (fun j => t.getD j "" = L) = [] := by
  rw [List.filter_eq_nil_iff]
  intro j hj
  simp only [decide_eq_true_eq]
  intro hEq
  exact hL (hEq ▸ getD_mem_of_lt t j "" (List.mem_range.mp hj))

theorem selIdx_append (hs : List String) (A B : List String) :
    selIdx hs (A ++ B) = selIdx hs A ++ selIdx hs B := by
  simp [selIdx]

theorem selIdx_cons_not_mem (H : String) (t : List String) (Ls : List String)
    (h : H ∉ Ls) : selIdx (H :: t) Ls = (selIdx t Ls).map (· + 1) := by
  unfold selIdx
  rw [List.map_flatten]
  congr 1
  rw [List.map_map]
  refine List.map_congr_left ?_
  intro L hL
  have hne : H ≠ L := fun hEq => h (hEq ▸ hL)
  simp only [Function.comp]
  rw [filter_range_getD_cons, if_neg hne, List.nil_append]

theorem selIdx_head_single (H : String) (t : List String) (hH : H ∉ t) :
    selIdx (H :: t) [H] = [0] := by
  unfold selIdx
  simp only [List.map_cons, List.map_nil, List.flatten]
  rw [filter_range_getD_cons, if_pos rfl, filter_range_getD_nil t H hH]
  simp

/-- Under pairwise-distinct labels, selecting the labels that pass a
predicate on the per-position values retrieves exactly the positions whose
value passes, in position order. -/
theorem selIdx_filter_eq_range_filter {α : Type} (hs : List String) (g : Nat → α)
    (P : α → Bool) (hnd : hs.Nodup) :
    selIdx hs ((((List.range hs.length).map (fun j => (hs.getD j "", g j))).filter
        (fun p => P p.2)).map Prod.fst)
      = (List.range hs.length).filter (fun j => P (g j)) := by
  induction hs generalizing g with
  | nil => rfl
  | cons H t ih =>
    rcases List.nodup_cons.mp hnd with ⟨hH, hndt⟩
    have hmap : (List.map (fun j => ((H :: t).getD j "", g j)) ((List.range t.length).map Nat.succ))
        = (List.range t.length).map (fun j => (t.getD j "", g (j + 1))) := by
      rw [List.map_map]
      rfl
    set tailPairs := (List.range t.length).map (fun j => (t.getD j "", g (j + 1))) with hTP
    have hsub : ∀ L ∈ (tailPairs.filter (fun p => P p.2)).map Prod.fst, L ∈ t := by
      intro L hL
      rcases List.mem_map.mp hL with ⟨p, hp, hpL⟩
      have hp2 := List.mem_of_mem_filter hp
      rcases List.mem_map.mp hp2 with ⟨j, hj, hpj⟩
      have : p.1 = t.getD j "" := by rw [← hpj]
      exact hpL ▸ this ▸ getD_mem_of_lt t j "" (List.mem_range.mp hj)
    have hHnotin : H ∉ (tailPairs.filter (fun p => P p.2)).map Prod.fst :=
      fun hmem => hH (hsub H hmem)
    have htail : selIdx (H :: t) ((tailPairs.filter (fun p => P p.2)).map Prod.fst)
        = ((List.range t.length).filter (fun j => P (g (j + 1)))).map (· + 1) := by
      rw [selIdx_cons_not_mem H t _ hHnotin, ih (fun j => g (j + 1)) hndt]
    have hfiltmap : (List.filter (fun j => P (g j)) ((List.range t.length).map Nat.succ))
        = ((List.range t.length).filter (fun j => P (g (j + 1)))).map Nat.succ := by
      rw [List.filter_map]
      rfl
    have hLHSpairs : ((List.range (H :: t).length).map (fun j => ((H :: t).getD j "", g j)))
        = (H, g 0) :: tailPairs := by
      rw [List.length_cons, List.range_succ_eq_map, List.map_cons, hmap]
      rfl
    have hRHS : (List.range (H :: t).length).filter (fun j => P (g j))
        = (if P (g 0) then [0] else [])
          ++ ((List.range t.length).filter (fun j => P (g (j + 1)))).map Nat.succ := by
      rw [List.length_cons, List.range_succ_eq_map, List.filter_cons, hfiltmap]
      by_cases hP : P (g 0) <;> simp [hP]
    rw [hLHSpairs, hRHS, List.filter_cons]
    by_cases hP : P (g 0)
    · simp only [hP, if_true, List.map_cons]
      show selIdx (H :: t) ([H] ++ (tailPairs.filter (fun p => P p.2)).map Prod.fst) = _
      rw [selIdx_append, selIdx_head_single H t hH, htail]
    · simp only [hP, Bool.false_eq_true, if_false, htail]
      rfl


theorem covPairs_fst (f : Frame) :
    (covPairs f).map Prod.fst = normHeaders f := by
  rw [covPairs, List.map_map]
  exact map_getD_range (normHeaders f) ""

theorem cleanCov_eq_covPairs (f : Frame) (hnd : (normHeaders f).Nodup) :
    cleanCov f = covPairs f := by
  rw [cleanCov]
  exact pyDict_eq_self (covPairs f) (by rw [covPairs_fst f]; exact hnd)

theorem cleanKeptIdx_eq_filter (f : Frame) (τc : ℚ) (hnd : (normHeaders f).Nodup)
    (hne : cleanKeepLabels f τc ≠ []) :
    cleanKeptIdx f τc
      = (List.range (normHeaders f).length).filter
          (fun j => covOK τc (covQ (normGrid f) j)) := by
  rw [cleanKeptIdx, if_neg hne]
  have hkeep : cleanKeepLabels f τc
      = (((covPairs f).filter (fun p => covOK τc p.2)).map Prod.fst) := by
    rw [cleanKeepLabels, cleanCov_eq_covPairs f hnd]
  rw [hkeep, covPairs]
  exact selIdx_filter_eq_range_filter (normHeaders f) (fun j => covQ (normGrid f) j)
    (covOK τc) hnd

/-- Claim C3 (amended; see also C1/C6): assuming the normalized headers are
pairwise distinct (the C1 bug can break this), either some column passes
the threshold — and then precisely the passing columns are retained, so
every retained column has pre-pruning coverage ≥ `min_column_coverage` —
or no column passes and the full column set is kept (the fallback).  The
cleaner's output headers are exactly the retained columns' labels. -/
theorem c3_column_coverage_amended :
    ∀ (f : Frame) (τc τr : ℚ), (normHeaders f).Nodup →
      ((∀ j ∈ cleanKeptIdx f τc, covOK τc (covQ (normGrid f) j) = true) ∨
        (cleanKeptIdx f τc = List.range (normHeaders f).length ∧
          ∀ j < (normHeaders f).length, covOK τc (covQ (normGrid f) j) = false)) ∧
      (_clean_sheet_dataframe f τc τr).1.headers
        = (cleanKeptIdx f τc).map (fun j => (normHeaders f).getD j "") := by
  intro f τc τr hnd
  refine ⟨?_, rfl⟩
  by_cases hne : cleanKeepLabels f τc = []
  · right
    refine ⟨by rw [cleanKeptIdx, if_pos hne], ?_⟩
    intro j hj
    have hfil : (covPairs f).filter (fun p => covOK τc p.2) = [] := by
      have : cleanKeepLabels f τc
          = (((covPairs f).filter (fun p => covOK τc p.2)).map Prod.fst) := by
        rw [cleanKeepLabels, cleanCov_eq_covPairs f hnd]
      rw [this] at hne
      exact List.map_eq_nil_iff.mp hne
    have hmem : ((normHeaders f).getD j "", covQ (normGrid f) j) ∈ covPairs f := by
      rw [covPairs]
      exact List.mem_map_of_mem _ (List.mem_range.mpr hj)
    have := List.filter_eq_nil_iff.mp hfil _ hmem
    simpa using this
  · left
    intro j hj
    rw [cleanKeptIdx_eq_filter f τc hnd hne] at hj
    exact (List.mem_filter.mp hj).2


/-- Witness for C3 (amended): on `denseFrame` the headers are distinct,
both columns pass (coverage 1), and both are retained. -/
theorem c3_column_coverage_amended_witness :
    (normHeaders denseFrame).Nodup ∧
      ((∀ j ∈ cleanKeptIdx denseFrame tauCol,
          covOK tauCol (covQ (normGrid denseFrame) j) = true) ∨
        (cleanKeptIdx denseFrame tauCol = List.range (normHeaders denseFrame).length ∧
          ∀ j < (normHeaders denseFrame).length,
            covOK tauCol (covQ (normGrid denseFrame) j) = false)) ∧
      (_clean_sheet_dataframe denseFrame tauCol tauRow).1.headers
        = (cleanKeptIdx denseFrame tauCol).map
            (fun j => (normHeaders denseFrame).getD j "") :=
  ⟨by with_unfolding_all decide,
   c3_column_coverage_amended denseFrame tauCol tauRow (by with_unfolding_all decide)⟩

/-! ### Cleaner idempotence under stable headers (C4) -/

theorem head_dropWhile_ws (l : List Char) (a : Char)
    (h : (l.dropWhile isWsChar).head? = some a) : isWsChar a = false := by
  induction l with
  | nil => simp [List.dropWhile] at h
  | cons b t ih =>
    rw [List.dropWhile_cons] at h
    by_cases hb : isWsChar b = true
    · rw [if_pos hb] at h
      exact ih h
    · rw [if_neg hb] at h
      simp only [List.head?_cons, Option.some.injEq] at h
      subst h
      simpa using hb

theorem dropWhile_ws_eq_self_of_head (x : List Char)
    (hx : ∀ a, x.head? = some a → isWsChar a = false) :
    x.dropWhile isWsChar = x := by
  cases x with
  | nil => rfl
  | cons a t =>
    have := hx a rfl
    simp [List.dropWhile_cons, this]

theorem stripChars_idem (l : List Char) : stripChars (stripChars l) = stripChars l := by
  have hpre : List.rdropWhile isWsChar (l.dropWhile isWsChar) <+: l.dropWhile isWsChar :=
    List.rdropWhile_prefix _ _
  have hdw : (List.rdropWhile isWsChar (l.dropWhile isWsChar)).dropWhile isWsChar
      = List.rdropWhile isWsChar (l.dropWhile isWsChar) := by
    apply dropWhile_ws_eq_self_of_head
    intro a ha
    apply head_dropWhile_ws l a
    rcases hpre with ⟨u, hu⟩
    rw [← hu]
    cases hsl : List.rdropWhile isWsChar (l.dropWhile isWsChar) with
    | nil => rw [hsl] at ha; simp at ha
    | cons b r =>
      rw [hsl] at ha
      simpa using ha
  unfold stripChars
  rw [hdw]
  exact List.rdropWhile_idempotent _ _

theorem pyStrip_idem (s : String) : pyStrip (pyStrip s) = pyStrip s :=
  congrArg String.mk (stripChars_idem s.data)

theorem normCell_idem (c : Option String) : normCell (normCell c) = normCell c := by
  cases c with
  | none => rfl
  | some s =>
    simp only [normCell]
    by_cases h1 : pyStrip s = ""
    · simp [h1]
    · by_cases h2 : pyStrip s = " "
      · simp [h1, h2]
      · simp [h1, h2, pyStrip_idem s]

theorem normHeadGo_fixed (hs : List String) :
    ∀ (seen : String → Nat) (idx : Nat),
      (∀ L ∈ hs, pyStrip L = L ∧ L ≠ "") → hs.Nodup →
      (∀ L ∈ hs, seen L = 0) →
      normHeadGo seen idx (hs.map some) = hs := by
  induction hs with
  | nil => intro seen idx _ _ _; rfl
  | cons L t ih =>
    intro seen idx hgood hnd hseen
    have hL := hgood L (by simp)
    rcases List.nodup_cons.mp hnd with ⟨hLt, hndt⟩
    have hseenL : seen L = 0 := hseen L (by simp)
    rw [List.map_cons]
    show (let base := pyStrip L
          let label := if base = "" then "col_" ++ toString (idx + 1) else base
          let count := seen label
          let final := if count ≠ 0 then label ++ "__" ++ toString count else label
          final :: normHeadGo (fun k => if k = final then count + 1 else seen k)
            (idx + 1) (t.map some)) = L :: t
    simp only [hL.1, if_neg hL.2, hseenL, ne_eq, not_true_eq_false, if_false,
      List.cons.injEq, true_and]
    refine ih _ (idx + 1) (fun L' hL' => hgood L' (by simp [hL'])) hndt ?_
    intro L' hL'
    have hne : L' ≠ L := fun hEq => hLt (hEq ▸ hL')
    simp only [if_neg hne]
    exact hseen L' (by simp [hL'])

/-- A pairwise-distinct list of stripped, non-empty labels is a fixed point
of `_normalize_headers`. -/
theorem normalize_headers_fixed (hs : List String)
    (hgood : ∀ L ∈ hs, pyStrip L = L ∧ L ≠ "") (hnd : hs.Nodup) :
    _normalize_headers (hs.map some) = hs :=
  normHeadGo_fixed hs (fun _ => 0) 0 hgood hnd (fun _ _ => rfl)

theorem clean_fst_headers (f : Frame) (τc τr : ℚ) :
    (_clean_sheet_dataframe f τc τr).1.headers
      = (cleanKeptIdx f τc).map (fun j => (normHeaders f).getD j "") := rfl

theorem clean_fst_rows (f : Frame) (τc τr : ℚ) :
    (_clean_sheet_dataframe f τc τr).1.rows
      = ((normGrid f).map (fun r => (cleanKeptIdx f τc).map (fun j => r.getD j none))).filter
          (fun r => covOK τr (rowSignal r)) := rfl

theorem clean_rows_rect (f : Frame) (τc τr : ℚ) :
    ∀ r ∈ (_clean_sheet_dataframe f τc τr).1.rows,
      r.length = (_clean_sheet_dataframe f τc τr).1.headers.length := by
  intro r hr
  rw [clean_fst_rows] at hr
  rcases List.mem_filter.mp hr with ⟨hmem, _⟩
  rcases List.mem_map.mp hmem with ⟨r₀, _, rfl⟩
  rw [clean_fst_headers]
  simp

theorem clean_rows_sig (f : Frame) (τc τr : ℚ) :
    ∀ r ∈ (_clean_sheet_dataframe f τc τr).1.rows,
      covOK τr (rowSignal r) = true := by
  intro r hr
  rw [clean_fst_rows] at hr
  exact (List.mem_filter.mp hr).2

theorem clean_cells_norm (f : Frame) (τc τr : ℚ) :
    ∀ r ∈ (_clean_sheet_dataframe f τc τr).1.rows, ∀ c ∈ r, normCell c = c := by
  intro r hr c hc
  rw [clean_fst_rows] at hr
  rcases List.mem_filter.mp hr with ⟨hmem, _⟩
  rcases List.mem_map.mp hmem with ⟨r₀, hr₀, rfl⟩
  rcases List.mem_map.mp hc with ⟨j, _, rfl⟩
  by_cases hj : j < r₀.length
  · simp only [normGrid] at hr₀
    rcases List.mem_map.mp hr₀ with ⟨r₁, _, hr₀eq⟩
    subst hr₀eq
    have hcr : (List.map normCell r₁).getD j none ∈ List.map normCell r₁ :=
      getD_mem_of_lt _ j none hj
    rcases List.mem_map.mp hcr with ⟨c₁, _, hc₁⟩
    rw [← hc₁]
    exact normCell_idem c₁
  · rw [List.getD_eq_default _ _ (Nat.le_of_not_lt hj)]
    rfl

theorem clean_headers_nil_rows (f : Frame) (τc τr : ℚ)
    (h : (_clean_sheet_dataframe f τc τr).1.headers = []) :
    (_clean_sheet_dataframe f τc τr).1.rows = [] := by
  rw [List.eq_nil_iff_forall_not_mem]
  intro r hr
  have hlen := clean_rows_rect f τc τr r hr
  rw [h] at hlen
  simp only [List.length_nil] at hlen
  have hsig := clean_rows_sig f τc τr r hr
  rw [List.length_eq_zero.mp hlen] at hsig
  simp [rowSignal, covOK] at hsig

/-- A frame whose cleaned output satisfies the stability conditions is a
fixed point of the cleaner: nothing further is dropped and the report is
the trivial one (with the coverage of the table itself). -/
theorem clean_fixed_of_props (t : Frame) (τc τr : ℚ)
    (hnd : t.headers.Nodup)
    (hgood : ∀ L ∈ t.headers, pyStrip L = L ∧ L ≠ "")
    (hcells : ∀ r ∈ t.rows, ∀ c ∈ r, normCell c = c)
    (hrect : ∀ r ∈ t.rows, r.length = t.headers.length)
    (hsig : ∀ r ∈ t.rows, covOK τr (rowSignal r) = true)
    (hcov : (∀ j < t.headers.length, covOK τc (covQ t.rows j) = true) ∨ t.rows = []) :
    _clean_sheet_dataframe t τc τr = (t, ⟨0, 0, cleanCov t⟩) := by
  have hH : normHeaders t = t.headers := normalize_headers_fixed t.headers hgood hnd
  have hndN : (normHeaders t).Nodup := by rw [hH]; exact hnd
  have hG : normGrid t = t.rows := by
    unfold normGrid
    refine (List.map_congr_left ?_).trans (List.map_id t.rows)
    intro r hr
    exact (List.map_congr_left (hcells r hr)).trans (List.map_id r)
  have hCC : cleanCov t = covPairs t := cleanCov_eq_covPairs t hndN
  have hkept : cleanKeptIdx t τc = List.range t.headers.length := by
    rcases hcov with hall | hrows
    · by_cases h0 : t.headers = []
      · have hkeep : cleanKeepLabels t τc = [] := by
          rw [cleanKeepLabels, hCC]
          have hcp : covPairs t = [] := by
            rw [covPairs, hH, h0]
            rfl
          rw [hcp]
          rfl
        rw [cleanKeptIdx, if_pos hkeep, hH]
      · have hfil : (covPairs t).filter (fun p => covOK τc p.2) = covPairs t := by
          rw [List.filter_eq_self]
          intro p hp
          rw [covPairs] at hp
          rcases List.mem_map.mp hp with ⟨j, hj, rfl⟩
          have hjn : j < t.headers.length := by
            have := List.mem_range.mp hj
            rwa [hH] at this
          have := hall j hjn
          rw [hG]
          exact this
        have hkeep : cleanKeepLabels t τc = t.headers := by
          rw [cleanKeepLabels, hCC, hfil, covPairs_fst, hH]
        have hkeepne : cleanKeepLabels t τc ≠ [] := by
          rw [hkeep]
          exact h0
        rw [cleanKeptIdx_eq_filter t τc hndN hkeepne, hH, hG]
        apply List.filter_eq_self.mpr
        intro j hj
        exact hall j (List.mem_range.mp hj)
    · have hkeep : cleanKeepLabels t τc = [] := by
        rw [cleanKeepLabels, hCC]
        have hfil : (covPairs t).filter (fun p => covOK τc p.2) = [] := by
          rw [List.filter_eq_nil_iff]
          intro p hp
          rw [covPairs] at hp
          rcases List.mem_map.mp hp with ⟨j, _, rfl⟩
          rw [hG, hrows]
          simp [covQ, covOK]
        rw [hfil]
        rfl
      rw [cleanKeptIdx, if_pos hkeep, hH]
  have hph : (cleanKeptIdx t τc).map (fun j => (normHeaders t).getD j "") = t.headers := by
    rw [hkept, hH]
    exact map_getD_range t.headers ""
  have hpr : (normGrid t).map (fun r => (cleanKeptIdx t τc).map (fun j => r.getD j none))
      = t.rows := by
    rw [hkept, hG]
    refine (List.map_congr_left ?_).trans (List.map_id t.rows)
    intro r hr
    rw [← hrect r hr]
    exact map_getD_range r none
  have hfr : ((normGrid t).map (fun r => (cleanKeptIdx t τc).map (fun j => r.getD j none))).filter
      (fun r => covOK τr (rowSignal r)) = t.rows := by
    rw [hpr]
    exact List.filter_eq_self.mpr (fun r hr => hsig r hr)
  show (({ headers := (cleanKeptIdx t τc).map (fun j => (normHeaders t).getD j ""),
           rows := ((normGrid t).map (fun r => (cleanKeptIdx t τc).map
             (fun j => r.getD j none))).filter (fun r => covOK τr (rowSignal r)) } : Frame),
        ({ dropped_rows := ((normGrid t).map (fun r => (cleanKeptIdx t τc).map
              (fun j => r.getD j none))).length
              - (((normGrid t).map (fun r => (cleanKeptIdx t τc).map
                  (fun j => r.getD j none))).filter (fun r => covOK τr (rowSignal r))).length,
           dropped_columns := (normHeaders t).length - (cleanKeptIdx t τc).length,
           column_coverage := cleanCov t } : CleanReport))
      = (t, ⟨0, 0, cleanCov t⟩)
  rw [hfr, hpr, hph, hkept, hH]
  simp

/-- Claim C4 (amended): the cleaner is not idempotent in general (see the
counterexample), but it is on every cleaned output whose headers are
pairwise distinct (the C1 bug can break this), whitespace-stripped and
non-empty — the normalizer then fixes them — and whose columns' coverage,
recomputed on the cleaned table, still reaches `min_column_coverage` (or
the cleaned table has no rows): recleaning such an output returns the very
same table, drops zero rows and zero columns, and reports the cleaned
table's own coverage map. -/
theorem c4_clean_idempotent_amended :
    ∀ (f : Frame) (τc τr : ℚ),
      (_clean_sheet_dataframe f τc τr).1.headers.Nodup →
      (∀ L ∈ (_clean_sheet_dataframe f τc τr).1.headers, pyStrip L = L ∧ L ≠ "") →
      ((∀ j < (_clean_sheet_dataframe f τc τr).1.headers.length,
          covOK τc (covQ (_clean_sheet_dataframe f τc τr).1.rows j) = true) ∨
        (_clean_sheet_dataframe f τc τr).1.rows = []) →
      _clean_sheet_dataframe (_clean_sheet_dataframe f τc τr).1 τc τr
        = ((_clean_sheet_dataframe f τc τr).1,
            ⟨0, 0, cleanCov (_clean_sheet_dataframe f τc τr).1⟩) := by
  intro f τc τr hnd hgood hcov
  exact clean_fixed_of_props (_clean_sheet_dataframe f τc τr).1 τc τr hnd hgood
    (clean_cells_norm f τc τr) (clean_rows_rect f τc τr) (clean_rows_sig f τc τr) hcov


/-- Witness for C4 (amended): cleaning `denseFrameB` satisfies the
stability conditions and recleaning its output changes nothing. -/
theorem c4_clean_idempotent_amended_witness :
    (_clean_sheet_dataframe denseFrameB tauCol tauRow).1.headers.Nodup ∧
      (∀ L ∈ (_clean_sheet_dataframe denseFrameB tauCol tauRow).1.headers,
        pyStrip L = L ∧ L ≠ "") ∧
      ((∀ j < (_clean_sheet_dataframe denseFrameB tauCol tauRow).1.headers.length,
          covOK tauCol (covQ (_clean_sheet_dataframe denseFrameB tauCol tauRow).1.rows j)
            = true) ∨
        (_clean_sheet_dataframe denseFrameB tauCol tauRow).1.rows = []) ∧
      _clean_sheet_dataframe (_clean_sheet_dataframe denseFrameB tauCol tauRow).1 tauCol tauRow
        = ((_clean_sheet_dataframe denseFrameB tauCol tauRow).1,
            ⟨0, 0, cleanCov (_clean_sheet_dataframe denseFrameB tauCol tauRow).1⟩) :=
  ⟨by with_unfolding_all decide, by with_unfolding_all decide, by with_unfolding_all decide,
   c4_clean_idempotent_amended denseFrameB tauCol tauRow (by with_unfolding_all decide)
     (by with_unfolding_all decide) (by with_unfolding_all decide)⟩

/-! ### Outlier capping (C2) -/

theorem sortQ_sorted (xs : List ℚ) : List.Sorted (· ≤ ·) (sortQ xs) :=
  List.sorted_mergeSort' xs

theorem sortQ_length (xs : List ℚ) : (sortQ xs).length = xs.length := by
  simp [sortQ]

theorem sorted_getElem_mono (xs : List ℚ) (hs : List.Sorted (· ≤ ·) xs) (i j : Nat)
    (hij : i ≤ j) (hj : j < xs.length) (hi : i < xs.length) : xs[i] ≤ xs[j] := by
  have h := hs.rel_get_of_le (a := ⟨i, hi⟩) (b := ⟨j, hj⟩) (by exact hij)
  simpa [List.get_eq_getElem] using h

theorem quantileSorted_mono (xs : List ℚ) (hs : List.Sorted (· ≤ ·) xs) (hne : xs ≠ [])
    {p p' : ℚ} (hp0 : 0 ≤ p) (hpp : p ≤ p') (hp1 : p' ≤ 1) :
    quantileSorted xs p ≤ quantileSorted xs p' := by
  have hm : 1 ≤ xs.length := List.length_pos.mpr hne
  have hM0 : (0 : ℚ) ≤ (xs.length : ℚ) - 1 := by
    have : (1 : ℚ) ≤ (xs.length : ℚ) := by exact_mod_cast hm
    linarith
  set M : ℚ := (xs.length : ℚ) - 1 with hM
  set h : ℚ := p * M with hh
  set h' : ℚ := p' * M with hh'
  have hh0 : 0 ≤ h := mul_nonneg hp0 hM0
  have hhh : h ≤ h' := mul_le_mul_of_nonneg_right hpp hM0
  have hh'M : h' ≤ M := by
    calc p' * M ≤ 1 * M := mul_le_mul_of_nonneg_right hp1 hM0
    _ = M := one_mul M
  have hh'0 : 0 ≤ h' := le_trans hh0 hhh
  have hii' : ⌊h⌋₊ ≤ ⌊h'⌋₊ := Nat.floor_le_floor hhh
  have hile : (⌊h⌋₊ : ℚ) ≤ h := Nat.floor_le hh0
  have hi'le : (⌊h'⌋₊ : ℚ) ≤ h' := Nat.floor_le hh'0
  have hi'm : ⌊h'⌋₊ < xs.length := by
    have h1 : (⌊h'⌋₊ : ℚ) + 1 ≤ (xs.length : ℚ) := by
      have := le_trans hi'le hh'M
      rw [hM] at this
      linarith
    have h2 : ((⌊h'⌋₊ + 1 : ℕ) : ℚ) ≤ (xs.length : ℚ) := by push_cast; linarith
    have := Nat.cast_le.mp h2
    omega
  have him : ⌊h⌋₊ < xs.length := Nat.lt_of_le_of_lt hii' hi'm
  have hγ0 : 0 ≤ h - (⌊h⌋₊ : ℚ) := by linarith
  have hγ1 : h - (⌊h⌋₊ : ℚ) ≤ 1 := by
    have := Nat.lt_floor_add_one h
    linarith
  have hγ'0 : 0 ≤ h' - (⌊h'⌋₊ : ℚ) := by linarith
  show xs.getD ⌊h⌋₊ 0 + (h - (⌊h⌋₊ : ℚ)) * (xs.getD (⌊h⌋₊ + 1) (xs.getD ⌊h⌋₊ 0) - xs.getD ⌊h⌋₊ 0)
      ≤ xs.getD ⌊h'⌋₊ 0
        + (h' - (⌊h'⌋₊ : ℚ)) * (xs.getD (⌊h'⌋₊ + 1) (xs.getD ⌊h'⌋₊ 0) - xs.getD ⌊h'⌋₊ 0)
  have hab : xs.getD ⌊h⌋₊ 0 ≤ xs.getD (⌊h⌋₊ + 1) (xs.getD ⌊h⌋₊ 0) := by
    by_cases h1 : ⌊h⌋₊ + 1 < xs.length
    · rw [List.getD_eq_getElem _ _ him, List.getD_eq_getElem _ _ h1]
      exact sorted_getElem_mono xs hs _ _ (Nat.le_succ _) h1 him
    · rw [List.getD_eq_default _ _ (Nat.le_of_not_lt h1)]
  have ha'b' : xs.getD ⌊h'⌋₊ 0 ≤ xs.getD (⌊h'⌋₊ + 1) (xs.getD ⌊h'⌋₊ 0) := by
    by_cases h1 : ⌊h'⌋₊ + 1 < xs.length
    · rw [List.getD_eq_getElem _ _ hi'm, List.getD_eq_getElem _ _ h1]
      exact sorted_getElem_mono xs hs _ _ (Nat.le_succ _) h1 hi'm
    · rw [List.getD_eq_default _ _ (Nat.le_of_not_lt h1)]
  rcases Nat.eq_or_lt_of_le hii' with hEq | hlt
  · rw [← hEq]
    have hmul : (h - (⌊h⌋₊ : ℚ)) * (xs.getD (⌊h⌋₊ + 1) (xs.getD ⌊h⌋₊ 0) - xs.getD ⌊h⌋₊ 0)
        ≤ (h' - (⌊h⌋₊ : ℚ)) * (xs.getD (⌊h⌋₊ + 1) (xs.getD ⌊h⌋₊ 0) - xs.getD ⌊h⌋₊ 0) := by
      apply mul_le_mul_of_nonneg_right _ (by linarith)
      linarith
    linarith
  · have h1m : ⌊h⌋₊ + 1 < xs.length := Nat.lt_of_le_of_lt (Nat.succ_le_of_lt hlt) hi'm
    have hbb : xs.getD (⌊h⌋₊ + 1) (xs.getD ⌊h⌋₊ 0) ≤ xs.getD ⌊h'⌋₊ 0 := by
      rw [List.getD_eq_getElem _ _ h1m, List.getD_eq_getElem _ _ hi'm]
      exact sorted_getElem_mono xs hs _ _ (Nat.succ_le_of_lt hlt) hi'm h1m
    have hup : xs.getD ⌊h⌋₊ 0
        + (h - (⌊h⌋₊ : ℚ)) * (xs.getD (⌊h⌋₊ + 1) (xs.getD ⌊h⌋₊ 0) - xs.getD ⌊h⌋₊ 0)
        ≤ xs.getD (⌊h⌋₊ + 1) (xs.getD ⌊h⌋₊ 0) := by
      have := mul_le_mul_of_nonneg_right hγ1 (by linarith :
        (0 : ℚ) ≤ xs.getD (⌊h⌋₊ + 1) (xs.getD ⌊h⌋₊ 0) - xs.getD ⌊h⌋₊ 0)
      linarith
    have hdown : xs.getD ⌊h'⌋₊ 0 ≤ xs.getD ⌊h'⌋₊ 0
        + (h' - (⌊h'⌋₊ : ℚ)) * (xs.getD (⌊h'⌋₊ + 1) (xs.getD ⌊h'⌋₊ 0) - xs.getD ⌊h'⌋₊ 0) := by
      have := mul_nonneg hγ'0 (by linarith :
        (0 : ℚ) ≤ xs.getD (⌊h'⌋₊ + 1) (xs.getD ⌊h'⌋₊ 0) - xs.getD ⌊h'⌋₊ 0)
      linarith
    linarith

theorem clipQ_ne_iff (lo hi x : ℚ) (hlh : lo ≤ hi) :
    clipQ (some lo) (some hi) x ≠ x ↔ (x < lo ∨ hi < x) := by
  show min hi (max lo x) ≠ x ↔ (x < lo ∨ hi < x)
  rcases le_or_lt lo x with h1 | h1
  · rw [max_eq_right h1]
    rcases le_or_lt x hi with h2 | h2
    · rw [min_eq_right h2]
      simp [not_lt.2 h1, not_lt.2 h2]
    · rw [min_eq_left h2.le]
      simp [ne_of_lt h2, h2, not_lt.2 h1]
  · rw [max_eq_left h1.le, min_eq_right hlh]
    have hx : x < hi := lt_of_lt_of_le h1 hlh
    simp [ne_of_gt h1, h1, not_lt.2 hx.le]

theorem iqr_capped_count (col : List (Option ℚ)) (lo hi : ℚ) :
    ((col.zip (col.map (Option.map (clipQ (some lo) (some hi))))).filter
        (fun p => pandasNe p.2 p.1)).length
      = specCappedCount col (some lo) (some hi) + missingCount col := by
  induction col with
  | nil => rfl
  | cons c cs ih =>
    rw [List.map_cons, List.zip_cons_cons, List.filter_cons]
    cases c with
    | none =>
      rw [show pandasNe (Option.map (clipQ (some lo) (some hi)) (none : Option ℚ))
            none = true from rfl]
      rw [if_pos rfl, List.length_cons, ih]
      rw [show specCappedCount (none :: cs) (some lo) (some hi)
            = specCappedCount cs (some lo) (some hi) from rfl]
      rw [show missingCount (none :: cs) = missingCount cs + 1 from rfl]
      omega
    | some x =>
      rw [show pandasNe (Option.map (clipQ (some lo) (some hi)) (some x)) (some x)
            = decide (clipQ (some lo) (some hi) x ≠ x) from rfl]
      rw [show missingCount (some x :: cs) = missingCount cs from rfl]
      rw [show specCappedCount (some x :: cs) (some lo) (some hi)
            = (List.filter (fun y => decide (clipQ (some lo) (some hi) y ≠ y))
                (x :: List.filterMap id cs)).length from rfl]
      rw [List.filter_cons]
      by_cases h : clipQ (some lo) (some hi) x ≠ x
      · rw [if_pos (by simpa using h), if_pos (by simpa using h)]
        rw [List.length_cons, List.length_cons, ih]
        have : (List.filter (fun y => decide (clipQ (some lo) (some hi) y ≠ y))
            (List.filterMap id cs)).length = specCappedCount cs (some lo) (some hi) := rfl
        omega
      · rw [if_neg (by simpa using h), if_neg (by simpa using h)]
        exact ih

/-- Claim C2 (amended): for every numeric column with at least one
parseable value, `_iqr_cap` reports `lower = Q1 − 1.5·IQR` and
`upper = Q3 + 1.5·IQR` and clips to those bounds, and the claim's own count
("values the clipping actually changed") does equal the count of
non-missing values strictly outside `[lower, upper]` — but the *reported*
`capped` count equals that number *plus* the number of missing values,
because the pandas element-wise `clipped != series` is `True` at every
`NaN` entry.  (On a column without missing values, such as `[1,2,3,4,100]`,
the reported count coincides with the claim's.) -/
theorem c2_iqr_cap_amended :
    ∀ col : List (Option ℚ), col.filterMap id ≠ [] →
      ∃ q1 q3 : ℚ,
        q1 = quantileSorted (sortQ (col.filterMap id)) (1 / 4) ∧
          q3 = quantileSorted (sortQ (col.filterMap id)) (3 / 4) ∧
          _iqr_cap_col col
            = some (⟨some (q1 - 3 / 2 * (q3 - q1)), some (q3 + 3 / 2 * (q3 - q1)),
                specCappedCount col (some (q1 - 3 / 2 * (q3 - q1)))
                    (some (q3 + 3 / 2 * (q3 - q1)))
                  + missingCount col⟩,
               col.map (Option.map (clipQ (some (q1 - 3 / 2 * (q3 - q1)))
                 (some (q3 + 3 / 2 * (q3 - q1)))))) ∧
          specCappedCount col (some (q1 - 3 / 2 * (q3 - q1)))
              (some (q3 + 3 / 2 * (q3 - q1)))
            = ((col.filterMap id).filter
                (fun x => decide (x < q1 - 3 / 2 * (q3 - q1))
                  || decide (q3 + 3 / 2 * (q3 - q1) < x))).length := by
  intro col hne
  have hcol0 : ¬ col.length = 0 := by
    intro h
    rw [List.length_eq_zero.mp h] at hne
    exact hne rfl
  have hxs0 : ¬ (sortQ (col.filterMap id)).length = 0 := by
    rw [sortQ_length]
    intro h
    exact hne (List.length_eq_zero.mp h)
  have hxsne : sortQ (col.filterMap id) ≠ [] := by
    intro h
    exact hxs0 (by rw [h]; rfl)
  refine ⟨quantileSorted (sortQ (col.filterMap id)) (1 / 4),
    quantileSorted (sortQ (col.filterMap id)) (3 / 4), rfl, rfl, ?_, ?_⟩
  · simp only [_iqr_cap_col, if_neg hcol0, if_neg hxs0]
    simp only [Option.some.injEq, Prod.mk.injEq, OutSummary.mk.injEq]
    refine ⟨⟨trivial, trivial, ?_⟩, trivial⟩
    exact iqr_capped_count col _ _
  · have hq : quantileSorted (sortQ (col.filterMap id)) (1 / 4)
        ≤ quantileSorted (sortQ (col.filterMap id)) (3 / 4) :=
      quantileSorted_mono (sortQ (col.filterMap id)) (sortQ_sorted _) hxsne
        (by norm_num) (by norm_num) (by norm_num)
    have hlh : quantileSorted (sortQ (col.filterMap id)) (1 / 4)
          - 3 / 2 * (quantileSorted (sortQ (col.filterMap id)) (3 / 4)
            - quantileSorted (sortQ (col.filterMap id)) (1 / 4))
        ≤ quantileSorted (sortQ (col.filterMap id)) (3 / 4)
          + 3 / 2 * (quantileSorted (sortQ (col.filterMap id)) (3 / 4)
            - quantileSorted (sortQ (col.filterMap id)) (1 / 4)) := by
      linarith
    unfold specCappedCount
    congr 1
    apply List.filter_congr
    intro x _
    rw [← Bool.decide_or]
    exact decide_eq_decide.mpr (clipQ_ne_iff _ _ x hlh)

/-- Witness for C2 (amended): on the spec's example `[1,2,3,4,100]`
(no missing values) the bounds are `[-1, 7]` and the reported capped count
is exactly 1 — the value 100 clipped to 7. -/
theorem c2_iqr_cap_amended_witness :
    outlierCol.filterMap id ≠ [] ∧
      _iqr_cap_col outlierCol
        = some (⟨some (-1), some 7, 1⟩, [some 1, some 2, some 3, some 4, some 7]) := by
  obtain ⟨q1, q3, hq1, hq3, hmain, _⟩ :=
    c2_iqr_cap_amended outlierCol (by with_unfolding_all decide)
  refine ⟨by with_unfolding_all decide, ?_⟩
  rw [hmain]
  subst hq1
  subst hq3
  with_unfolding_all decide

/-! ### Feature-matrix shape (C8) -/

theorem sum_map_one {α : Type} (l : List α) : (l.map (fun _ => (1 : Nat))).sum = l.length := by
  induction l with
  | nil => rfl
  | cons a t ih =>
    simp [ih]
    omega

theorem sortStr_length (xs : List String) : (sortStr xs).length = xs.length := by
  simp [sortStr]

theorem iqr_cap_col_clipped (vals : List (Option ℚ)) (r : OutSummary × List (Option ℚ))
    (h : _iqr_cap_col vals = some r) :
    ∃ lo hi, r.2 = vals.map (Option.map (clipQ lo hi)) := by
  simp only [_iqr_cap_col] at h
  by_cases h0 : vals.length = 0
  · rw [if_pos h0] at h
    cases h
  · rw [if_neg h0] at h
    injection h with h2
    subst h2
    exact ⟨_, _, rfl⟩

theorem capCol_isNum (tc : TypedCol) : isNumTC (capCol tc) = isNumTC tc := by
  cases tc with
  | num vals =>
    cases h : _iqr_cap_col vals <;> simp [capCol, h, isNumTC]
  | cat vals => rfl

theorem filterMap_id_map_clip_nil (vals : List (Option ℚ)) (g : ℚ → ℚ) :
    ((vals.map (Option.map g)).filterMap id = []) ↔ (vals.filterMap id = []) := by
  induction vals with
  | nil => simp
  | cons c cs ih => cases c <;> simp [ih]

theorem capCol_featWidth (tc : TypedCol) : featWidth (capCol tc) = featWidth tc := by
  cases tc with
  | cat vals => rfl
  | num vals =>
    cases h : _iqr_cap_col vals with
    | none => simp [capCol, h]
    | some r =>
      obtain ⟨lo, hi, hr⟩ := iqr_cap_col_clipped vals r h
      simp only [capCol, h, featWidth, hr]
      simp only [filterMap_id_map_clip_nil]

theorem capCol_valsLen (tc : TypedCol) : valsLen (capCol tc) = valsLen tc := by
  cases tc with
  | cat vals => rfl
  | num vals =>
    cases h : _iqr_cap_col vals with
    | none => simp [capCol, h, valsLen]
    | some r =>
      obtain ⟨lo, hi, hr⟩ := iqr_cap_col_clipped vals r h
      simp [capCol, h, valsLen, hr]

theorem split_valsLen (f : Frame) :
    ∀ p ∈ _split_column_types f, valsLen p.2 = f.rows.length := by
  intro p hp
  rw [_split_column_types] at hp
  rcases List.mem_map.mp hp with ⟨j, _, rfl⟩
  show valsLen (if isNumericCol (colVals f j) = true then
      TypedCol.num (coerceNum (colVals f j)) else TypedCol.cat (colVals f j))
    = f.rows.length
  by_cases hcol : isNumericCol (colVals f j) = true
  · rw [if_pos hcol]
    simp [valsLen, coerceNum, colVals]
  · rw [if_neg hcol]
    simp [valsLen, colVals]

theorem split_num_char (f : Frame) :
    ∀ p ∈ _split_column_types f, isNumTC p.2 = true →
      ∃ j, p.2 = TypedCol.num (coerceNum (colVals f j))
        ∧ isNumericCol (colVals f j) = true := by
  intro p hp hnum
  rw [_split_column_types] at hp
  rcases List.mem_map.mp hp with ⟨j, _, rfl⟩
  by_cases hcol : isNumericCol (colVals f j) = true
  · exact ⟨j, by simp [hcol], hcol⟩
  · simp only [if_neg hcol] at hnum
    exact absurd hnum (by simp [isNumTC])

theorem isNumTC_false_cat (tc : TypedCol) (h : isNumTC tc = false) :
    ∃ v, tc = TypedCol.cat v := by
  cases tc with
  | num v => simp [isNumTC] at h
  | cat v => exact ⟨v, rfl⟩

theorem num_nonmissing (col : List (Option String)) (h : isNumericCol col = true) :
    (coerceNum col).filterMap id ≠ [] := by
  have hshare : numericShare col > 3 / 5 := by
    simp only [isNumericCol, Bool.and_eq_true, decide_eq_true_eq] at h
    exact h.1
  unfold numericShare at hshare
  by_cases h0 : col.length = 0
  · rw [if_pos h0] at hshare
    norm_num at hshare
  · rw [if_neg h0] at hshare
    have hcnt : ((coerceNum col).filter Option.isSome).length ≠ 0 := by
      intro hc
      rw [hc] at hshare
      norm_num at hshare
    have hfil : (coerceNum col).filter Option.isSome ≠ [] := by
      intro hnil
      rw [hnil] at hcnt
      exact hcnt rfl
    rcases List.exists_mem_of_ne_nil _ hfil with ⟨x, hx⟩
    rcases List.mem_filter.mp hx with ⟨hxm, hxs⟩
    rcases Option.isSome_iff_exists.mp hxs with ⟨y, rfl⟩
    intro hnil
    have hmem : y ∈ (coerceNum col).filterMap id :=
      List.mem_filterMap.mpr ⟨some y, hxm, rfl⟩
    rw [hnil] at hmem
    exact absurd hmem (List.not_mem_nil y)

theorem foldl_pick_mem (xs : List String) :
    ∀ (l : List String) (acc : String) (S : List String), acc ∈ S → (∀ c ∈ l, c ∈ S) →
      (l.foldl (fun b c => if xs.count c > xs.count b then c else b) acc) ∈ S := by
  intro l
  induction l with
  | nil => intro acc S h _; exact h
  | cons c cs ih =>
    intro acc S hacc hsub
    simp only [List.foldl_cons]
    apply ih
    · by_cases hc : xs.count c > xs.count acc
      · rw [if_pos hc]
        exact hsub c (by simp)
      · rw [if_neg hc]
        exact hacc
    · intro c' hc'
      exact hsub c' (by simp [hc'])

theorem modeStr_mem (xs : List String) (h : xs ≠ []) : modeStr xs ∈ xs := by
  unfold modeStr
  have hu : sortStr xs.dedup ≠ [] := by
    intro hnil
    have h2 : (sortStr xs.dedup).length = 0 := by rw [hnil]; rfl
    rw [sortStr_length] at h2
    exact h ((List.dedup_eq_nil xs).mp (List.length_eq_zero.mp h2))
  have hsub : ∀ c ∈ sortStr xs.dedup, c ∈ xs := by
    intro c hc
    have : c ∈ xs.dedup := by simpa [sortStr] using hc
    exact List.mem_dedup.mp this
  apply foldl_pick_mem
  · apply hsub
    cases hu2 : sortStr xs.dedup with
    | nil => exact absurd hu2 hu
    | cons a t => simp
  · exact hsub

theorem imputed_toFinset (v : List (Option String)) (h : v.filterMap id ≠ []) :
    (v.map (fun c => c.getD (modeStr (v.filterMap id)))).toFinset
      = (v.filterMap id).toFinset := by
  ext x
  simp only [List.mem_toFinset, List.mem_map, List.mem_filterMap, id_eq]
  constructor
  · rintro ⟨c, hc, rfl⟩
    cases c with
    | some y => exact ⟨some y, hc, rfl⟩
    | none =>
      have hm := modeStr_mem (v.filterMap id) h
      rcases List.mem_filterMap.mp hm with ⟨c', hc', hc'2⟩
      exact ⟨c', hc', hc'2⟩
  · rintro ⟨c, hc, hc2⟩
    cases c with
    | none => simp at hc2
    | some y =>
      have hyx : y = x := by simpa using hc2
      subst hyx
      exact ⟨some y, hc, rfl⟩

theorem dedup_length_imputed (v : List (Option String)) (h : v.filterMap id ≠ []) :
    ((v.map (fun c => c.getD (modeStr (v.filterMap id)))).dedup).length
      = ((v.filterMap id).dedup).length := by
  have hcard := congrArg Finset.card (imputed_toFinset v h)
  rwa [List.card_toFinset, List.card_toFinset] at hcard

theorem featWidth_cat (v : List (Option String)) :
    featWidth (TypedCol.cat v) = catDistinct (TypedCol.cat v) - 1 := by
  by_cases h : v.filterMap id = []
  · simp [featWidth, catCategories, h, catDistinct]
  · simp only [featWidth, catCategories, if_neg h, catDistinct]
    rw [List.length_tail, sortStr_length, dedup_length_imputed v h]

theorem colBlock_entry_len (tc : TypedCol) (i : Nat) (hi : i < valsLen tc) :
    ((colBlock tc).getD i []).length = featWidth tc := by
  cases tc with
  | num vals =>
    simp only [valsLen] at hi
    by_cases h : vals.filterMap id = []
    · simp only [colBlock, if_pos h, featWidth, if_pos h]
      rw [List.getD_eq_getElem _ _ (by simpa using hi)]
      simp
    · simp only [colBlock, if_neg h, featWidth, if_neg h]
      rw [List.getD_eq_getElem _ _ (by simpa using hi)]
      simp
  | cat vals =>
    simp only [valsLen] at hi
    by_cases h : vals.filterMap id = []
    · simp only [colBlock, if_pos h]
      rw [List.getD_eq_getElem _ _ (by simpa using hi)]
      simp only [featWidth, catCategories, if_pos h]
      simp
    · simp only [colBlock, if_neg h, featWidth]
      rw [List.getD_eq_getElem _ _ (by simpa using hi)]
      simp

theorem build_row_len (cols : List (String × TypedCol)) (n i : Nat) (hi : i < n)
    (hv : ∀ p ∈ cols, valsLen p.2 = n) :
    ((((cols.filter (fun p => isNumTC p.2) ++ cols.filter (fun p => !isNumTC p.2)).map
        (fun p => colBlock p.2)).map (fun b => b.getD i [])).flatten).length
      = ((cols.filter (fun p => isNumTC p.2) ++ cols.filter (fun p => !isNumTC p.2)).map
          (fun p => featWidth p.2)).sum := by
  rw [List.length_flatten, List.map_map, List.map_map]
  apply congrArg List.sum
  apply List.map_congr_left
  intro p hp
  have hpc : p ∈ cols := by
    rcases List.mem_append.mp hp with h | h
    exacts [List.mem_of_mem_filter h, List.mem_of_mem_filter h]
  show ((colBlock p.2).getD i []).length = featWidth p.2
  exact colBlock_entry_len p.2 i (by rw [hv p hpc]; exact hi)

theorem capped_filter_eq (f : Frame) (P : Bool → Bool) :
    (_iqr_cap (_split_column_types f)).1.filter (fun p => P (isNumTC p.2))
      = ((_split_column_types f).filter (fun q => P (isNumTC q.2))).map
          (fun q => (q.1, capCol q.2)) := by
  have hcapmap : (_iqr_cap (_split_column_types f)).1
      = (_split_column_types f).map (fun q => (q.1, capCol q.2)) := rfl
  rw [hcapmap, List.filter_map]
  congr 1
  apply List.filter_congr
  intro q _
  show P (isNumTC (capCol q.2)) = P (isNumTC q.2)
  rw [capCol_isNum]

/-- Claim C8 (confirmed): for a non-empty cleaned table (at least one row
and one column — every column is typed numeric or categorical), the
feature matrix of `build_ml_preview` has as many rows as the table, and
its width is the numeric-column count plus, over categorical columns, the
distinct-category count minus one (ℕ-subtraction; an all-missing
categorical column is dropped by the imputer and contributes 0 = 0 − 1). -/
theorem c8_feature_matrix_shape :
    ∀ f : Frame, f.rows ≠ [] → f.headers ≠ [] →
      (mlFeatureMatrix f).length = f.rows.length ∧
        ∀ row ∈ mlFeatureMatrix f,
          row.length = splitNumCount f + splitCatWidth f := by
  intro f hr hh
  constructor
  · simp [mlFeatureMatrix, _build_feature_matrix]
  intro row hrow
  simp only [mlFeatureMatrix, _build_feature_matrix] at hrow
  rcases List.mem_map.mp hrow with ⟨i, hi, rfl⟩
  have hin : i < f.rows.length := List.mem_range.mp hi
  have hcapmap : (_iqr_cap (_split_column_types f)).1
      = (_split_column_types f).map (fun q => (q.1, capCol q.2)) := rfl
  have hv : ∀ p ∈ (_iqr_cap (_split_column_types f)).1, valsLen p.2 = f.rows.length := by
    intro p hp
    rw [hcapmap] at hp
    rcases List.mem_map.mp hp with ⟨q, hq, rfl⟩
    rw [capCol_valsLen, split_valsLen f q hq]
  rw [build_row_len (_iqr_cap (_split_column_types f)).1 f.rows.length i hin hv]
  rw [List.map_append, List.sum_append]
  have hnumfil : (_iqr_cap (_split_column_types f)).1.filter (fun p => isNumTC p.2)
      = ((_split_column_types f).filter (fun q => isNumTC q.2)).map
          (fun q => (q.1, capCol q.2)) := by
    have := capped_filter_eq f id
    simpa using this
  have hcatfil : (_iqr_cap (_split_column_types f)).1.filter (fun p => !isNumTC p.2)
      = ((_split_column_types f).filter (fun q => !isNumTC q.2)).map
          (fun q => (q.1, capCol q.2)) := by
    have := capped_filter_eq f (fun b => !b)
    simpa using this
  have hnumsum : (((_iqr_cap (_split_column_types f)).1.filter
        (fun p => isNumTC p.2)).map (fun p => featWidth p.2)).sum = splitNumCount f := by
    rw [hnumfil, List.map_map]
    have hone : ∀ q ∈ (_split_column_types f).filter (fun q => isNumTC q.2),
        ((fun p : String × TypedCol => featWidth p.2) ∘ (fun q => (q.1, capCol q.2))) q
          = (fun _ => (1 : Nat)) q := by
      intro q hq
      rcases List.mem_filter.mp hq with ⟨hqm, hqn⟩
      show featWidth (capCol q.2) = 1
      rw [capCol_featWidth]
      obtain ⟨j, hq2, hnumcol⟩ := split_num_char f q hqm (by simpa using hqn)
      rw [hq2]
      simp [featWidth, num_nonmissing _ hnumcol]
    rw [List.map_congr_left hone, sum_map_one]
    rfl
  have hcatsum : (((_iqr_cap (_split_column_types f)).1.filter
        (fun p => !isNumTC p.2)).map (fun p => featWidth p.2)).sum = splitCatWidth f := by
    rw [hcatfil, List.map_map]
    have hw : ∀ q ∈ (_split_column_types f).filter (fun q => !isNumTC q.2),
        ((fun p : String × TypedCol => featWidth p.2) ∘ (fun q => (q.1, capCol q.2))) q
          = (fun p : String × TypedCol => catDistinct p.2 - 1) q := by
      intro q hq
      rcases List.mem_filter.mp hq with ⟨_, hqn⟩
      show featWidth (capCol q.2) = catDistinct q.2 - 1
      rw [capCol_featWidth]
      obtain ⟨v, hv2⟩ := isNumTC_false_cat q.2 (by simpa using hqn)
      rw [hv2]
      exact featWidth_cat v
    rw [List.map_congr_left hw]
    rfl
  rw [hnumsum, hcatsum]


/-- Witness for C8: `mlFrame` yields a 5 × (1 + (3 − 1)) feature matrix. -/
theorem c8_feature_matrix_shape_witness :
    mlFrame.rows ≠ [] ∧ mlFrame.headers ≠ [] ∧
      (mlFeatureMatrix mlFrame).length = mlFrame.rows.length ∧
      (∀ row ∈ mlFeatureMatrix mlFrame,
        row.length = splitNumCount mlFrame + splitCatWidth mlFrame) ∧
      splitNumCount mlFrame = 1 ∧ splitCatWidth mlFrame = 2 ∧
      mlFrame.rows.length = 5 :=
  ⟨by with_unfolding_all decide, by with_unfolding_all decide,
   (c8_feature_matrix_shape mlFrame (by with_unfolding_all decide)
     (by with_unfolding_all decide)).1,
   (c8_feature_matrix_shape mlFrame (by with_unfolding_all decide)
     (by with_unfolding_all decide)).2,
   by with_unfolding_all decide, by with_unfolding_all decide,
   by with_unfolding_all decide⟩

